import Mathlib

/-!
Verification of the demini bundle-analysis engine (demini-classify and
demini-trace) against its specification.

The JavaScript sources are shallowly embedded: AST nodes are an inductive
type carrying the byte offsets the acorn parser would provide, source text
is a list of characters, and every analysis function is translated
statement by statement from the JS source.  The acorn parser and the
acorn-walk identifier walker are external collaborators (spec sect. 1);
the walker's per-statement output is supplied as an oracle field on each
top-level statement.

All machine integers in the source are small array indices and counters,
modelled by Nat/Int; the Jaccard similarity (an IEEE double in JS) is
modelled by Rat, exact for the small set cardinalities that occur.
-/

namespace Demini

/-! ## Source text

JS strings are modelled as lists of characters; `code.slice(s, e)` becomes
`sliceCode`, `String.prototype.includes` becomes `listIncludes`, and
`replace(/\s+/g, "")` becomes `stripWs`. -/

/-- Source text of the bundle, one entry per character. -/
abbrev Code := List Char

/-- Model of `code.slice(s, e)` (JS String.prototype.slice with s ≤ e). -/
def sliceCode (code : Code) (s e : Nat) : List Char :=
  (code.drop s).take (e - s)

/-- Model of JS `hay.includes(pat)`: `pat` occurs contiguously in `hay`. -/
def listIncludes (hay pat : List Char) : Bool :=
  (List.range (hay.length + 1)).any (fun k => pat.isPrefixOf (hay.drop k))

/-- Model of `s.replace(/\s+/g, "")`: drop all whitespace characters. -/
def stripWs (l : List Char) : List Char :=
  l.filter (fun c => !c.isWhitespace)

/-! ## AST model

Only the node shapes inspected by the analysis engine are distinguished;
every other expression or statement collapses to an `other` constructor.
Each expression node records the `start`/`end` byte offsets acorn puts on
it (`end` is named `stop`, `end` being a Lean keyword). -/

mutual

/-- An ESTree expression node: byte span plus the shape tag. -/
inductive Expr where
  | mk (start : Nat) (stop : Nat) (shape : ExprShape)

/-- Shape of an expression node.  An arrow's `body` may itself be an
arrow; block bodies and all other forms collapse to `otherExpr`. -/
inductive ExprShape where
  | arrowFunctionExpression (paramCount : Nat) (body : Expr)
  | functionExpression
  | callExpression (callee : Option String)
  | memberExpression
  | otherExpr

end

/-- Byte offset where an expression node starts. -/
def Expr.start : Expr → Nat
  | .mk s _ _ => s

/-- Byte offset where an expression node ends. -/
def Expr.stop : Expr → Nat
  | .mk _ e _ => e

/-- Shape tag of an expression node. -/
def Expr.shape : Expr → ExprShape
  | .mk _ _ sh => sh

/-- A binding pattern (declarator id).  An `objectPat` entry is the
property's value, or the rest element's argument; an `arrayPat` entry is
`none` for a hole. -/
inductive Pat where
  | ident (name : String)
  | objectPat (props : List Pat)
  | arrayPat (elems : List (Option Pat))

/-- One declarator of a `VariableDeclaration` (`decl.id`, `decl.init`). -/
structure Declarator where
  id : Option Pat
  init : Option Expr

/-- A top-level statement's shape.  Only the kinds the engine inspects are
distinguished. -/
inductive Stmt where
  | variableDeclaration (declarations : List Declarator)
  | functionDeclaration (id : Option String)
  | classDeclaration (id : Option String)
  | expressionStatement (expression : Expr)
  | exportNamedDeclaration (declaration : Option Stmt)
  | otherStmt

/-- One entry of `ast.body`: the node, its byte span and line span, plus
the list of identifier names acorn-walk's `Identifier` visitor would
report inside the subtree (the walker is an external collaborator,
spec sect. 1, so its output is an oracle field). -/
structure TopStmt where
  node : Stmt
  start : Nat
  stop : Nat
  startLine : Nat
  endLine : Nat
  idents : List String

/-! ## JS object / Map model

A JS object used as a string map (`helpers[name] = kind`) and a JS `Map`
(`definedBy.set(name, i)`) both overwrite on repeated keys; both are
modelled as association lists with in-place overwrite. -/

/-- Model of `obj[k] = v` / `map.set(k, v)`: overwrite in place if the key
is present, append otherwise. -/
def mapSet {β : Type} (m : List (String × β)) (k : String) (v : β) :
    List (String × β) :=
  if m.any (fun p => p.1 = k) then
    m.map (fun p => if p.1 = k then (k, v) else p)
  else
    m ++ [(k, v)]

/-- Model of `obj[k]` / `map.get(k)`. -/
def mapGet {β : Type} (m : List (String × β)) (k : String) : Option β :=
  (m.find? (fun p => p.1 = k)).map (fun p => p.2)

/-- Helper map: minified name → semantic helper kind (a `HelperMap` in the
spec's data model). -/
abbrev HelperMap := List (String × String)

/-! ## Runtime helper detection — trace stage

Translation of `detectRuntimeHelpers` from demini-trace. -/

/-- Does `init` have the curried-arrow shape
`(a, b) => () => ...` (two params, body an arrow with zero params)? -/
def isCurriedArrow (init : Expr) : Bool :=
  match init.shape with
  | .arrowFunctionExpression 2 body =>
    match body.shape with
    | .arrowFunctionExpression 0 _ => true
    | _ => false
  | _ => false

/-- Source slice of `init.body` (used when `init` is the curried arrow;
the inner arrow's full source). -/
def innerSlice (code : Code) (init : Expr) : List Char :=
  match init.shape with
  | .arrowFunctionExpression _ body => sliceCode code body.start body.stop
  | _ => []

/-- Is `init` an `ArrowFunctionExpression` or a `FunctionExpression`? -/
def isFunctionLike (init : Expr) : Bool :=
  match init.shape with
  | .arrowFunctionExpression _ _ => true
  | .functionExpression => true
  | _ => false

/-- Helper kind the trace stage's `detectRuntimeHelpers` assigns to one
declarator's initializer, if any.  The source's fall-through of guarded
`continue`s is written as a nested conditional. -/
def traceHelperKind (code : Code) (init : Expr) : Option String :=
  let initSrc := sliceCode code init.start init.stop
  let innerSrc := innerSlice code init
  if isCurriedArrow init && listIncludes innerSrc "exports".toList &&
      listIncludes innerSrc "\x7b\x7d".toList then
    some "__commonJS"
  else if isCurriedArrow init && listIncludes innerSrc "= 0".toList &&
      !listIncludes innerSrc "exports".toList then
    some "__esm"
  else if isFunctionLike init &&
      (listIncludes initSrc "__esModule".toList ||
       listIncludes initSrc "esModule".toList) then
    some "__toESM"
  else if isFunctionLike init &&
      listIncludes initSrc "getOwnPropertyNames".toList &&
      listIncludes initSrc "defineProperty".toList then
    some "__copyProps"
  else
    none

/-- The trace stage's `detectRuntimeHelpers(ast, code)`: walk every
declarator of every top-level `VariableDeclaration` whose id is an
identifier, and record the detected kind. -/
def detectRuntimeHelpersTrace (body : List TopStmt) (code : Code) :
    HelperMap :=
  body.foldl
    (fun helpers ts =>
      match ts.node with
      | .variableDeclaration decls =>
        decls.foldl
          (fun h d =>
            match d.init, d.id with
            | some init, some (.ident name) =>
              match traceHelperKind code init with
              | some kind => mapSet h name kind
              | none => h
            | _, _ => h)
          helpers
      | _ => helpers)
    []

/-! ## Runtime helper detection — classify stage

Translation of `detectRuntimeHelpers` from demini-classify: a known-name
shortcut first, then shape checks on the whitespace-stripped inner
source. -/

/-- The classify stage's `knownHelpers[name]` lookup (non-minified bundles
use the literal helper names). -/
def knownHelperKind (name : String) : Option String :=
  if name = "__commonJS" || name = "__esm" || name = "__toESM" ||
      name = "__copyProps" then
    some name
  else
    none

/-- Helper kind the classify stage assigns to one declarator (name and
initializer), if any.  Differences from the trace stage: the known-name
shortcut, and the inner source is whitespace-stripped before the
`exports` / `\x7b\x7d` / `=0` substring tests. -/
def classifyHelperKind (code : Code) (name : String) (init : Expr) :
    Option String :=
  match knownHelperKind name with
  | some k => some k
  | none =>
    let initSrc := sliceCode code init.start init.stop
    let innerNorm := stripWs (innerSlice code init)
    if isCurriedArrow init && listIncludes innerNorm "exports".toList &&
        listIncludes innerNorm "\x7b\x7d".toList then
      some "__commonJS"
    else if isCurriedArrow init && listIncludes innerNorm "=0".toList &&
        !listIncludes innerNorm "exports".toList then
      some "__esm"
    else if isFunctionLike init &&
        (listIncludes initSrc "__esModule".toList ||
         listIncludes initSrc "esModule".toList) then
      some "__toESM"
    else if isFunctionLike init &&
        listIncludes initSrc "getOwnPropertyNames".toList &&
        listIncludes initSrc "defineProperty".toList then
      some "__copyProps"
    else
      none

/-- The classify stage's `detectRuntimeHelpers(ast, code)`. -/
def detectRuntimeHelpersClassify (body : List TopStmt) (code : Code) :
    HelperMap :=
  body.foldl
    (fun helpers ts =>
      match ts.node with
      | .variableDeclaration decls =>
        decls.foldl
          (fun h d =>
            match d.init, d.id with
            | some init, some (.ident name) =>
              match classifyHelperKind code name init with
              | some kind => mapSet h name kind
              | none => h
            | _, _ => h)
          helpers
      | _ => helpers)
    []

/-! ## Per-statement WrapKind — trace stage

Translation of `classifyStmtWrapKind(stmt, index, runtimeHelpers, code)`
from demini-trace (the `index` and `code` parameters are unused in the
source and kept here for fidelity).  WrapKinds are the literal strings the
source uses. -/

/-- Does this declarator's id define a runtime helper
(`decl.id.type === "Identifier" && runtimeHelpers[decl.id.name]`)? -/
def declIdIsHelper (helpers : HelperMap) (d : Declarator) : Bool :=
  match d.id with
  | some (.ident n) => (mapGet helpers n).isSome
  | _ => false

/-- Helper kind of the callee when this declarator's initializer is a call
`x(...)` with an identifier callee, if the callee is a known helper. -/
def declInitCalleeHelper (helpers : HelperMap) (d : Declarator) :
    Option String :=
  match d.init with
  | some init =>
    match init.shape with
    | .callExpression (some c) => mapGet helpers c
    | _ => none
  | none => none

/-- The declarator loop of `classifyStmtWrapKind`: first declarator that
fires a rule decides; otherwise fall through to the next. -/
def wrapKindOfDecls (helpers : HelperMap) : List Declarator → String
  | [] => "None"
  | d :: rest =>
    if declIdIsHelper helpers d then "RUNTIME"
    else
      match declInitCalleeHelper helpers d with
      | some "__commonJS" => "CJS"
      | some "__esm" => "ESM"
      | some "__toESM" => "IMPORT"
      | some "__copyProps" => "IMPORT"
      | _ => wrapKindOfDecls helpers rest

/-- The trace stage's `classifyStmtWrapKind`. -/
def classifyStmtWrapKind (stmt : Stmt) (_index : Nat)
    (helpers : HelperMap) (_code : Code) : String :=
  match stmt with
  | .variableDeclaration decls => wrapKindOfDecls helpers decls
  | _ => "None"

/-! ## Bundler fingerprinting — classify stage

Translation of `detectBundleType(ast, code, runtimeHelpers)`. -/

/-- Result of the bundler fingerprinter. -/
structure BundleType where
  bundler : String
  confidence : String
  signals : List String
deriving DecidableEq, Repr

/-- The `Object.*` preamble patterns checked in the first five
statements. -/
def preamblePatterns : List (List Char) :=
  ["Object.create".toList, "Object.defineProperty".toList,
   "Object.getOwnPropertyDescriptor".toList,
   "Object.getOwnPropertyNames".toList]

/-- Number of statements among the first five whose source text contains
at least one preamble pattern (each statement counts at most once — the
source `break`s after the first matching pattern). -/
def preambleCount (body : List TopStmt) (code : Code) : Nat :=
  (body.take 5).countP
    (fun ts =>
      preamblePatterns.any
        (fun pat => listIncludes (sliceCode code ts.start ts.stop) pat))

/-- The signal list `detectBundleType` collects, in source order. -/
def bundleSignals (body : List TopStmt) (code : Code)
    (helpers : HelperMap) : List String :=
  let helperKinds := helpers.map (fun p => p.2)
  (if helperKinds.contains "__commonJS" then
    ["__commonJS helper detected"] else []) ++
  (if helperKinds.contains "__esm" then
    ["__esm helper detected"] else []) ++
  (if helperKinds.contains "__toESM" then
    ["__toESM helper detected"] else []) ++
  (if helperKinds.contains "__copyProps" then
    ["__copyProps helper detected"] else []) ++
  (if preambleCount body code ≥ 3 then
    ["Object.* preamble (3+ in first 5 statements)"] else []) ++
  (if listIncludes code "createRequire".toList &&
      listIncludes code "import.meta.url".toList then
    ["createRequire(import.meta.url) banner"] else [])

/-- The classify stage's `detectBundleType`. -/
def detectBundleType (body : List TopStmt) (code : Code)
    (helpers : HelperMap) : BundleType :=
  let signals := bundleSignals body code helpers
  if signals.length ≥ 2 then
    { bundler := "esbuild", confidence := "high", signals := signals }
  else if signals.length = 1 then
    { bundler := "esbuild", confidence := "medium", signals := signals }
  else
    { bundler := "unknown", confidence := "low", signals := signals }

/-! ## Definition map — trace stage

Translation of `extractPatternNames` and the `definedBy` / `stmtDefs`
construction. -/

mutual

/-- The trace stage's recursive `extractPatternNames`, returning the names
in push order. -/
def extractPatternNames : Pat → List String
  | .ident n => [n]
  | .objectPat props => extractPatternNamesList props
  | .arrayPat elems => extractPatternNamesOptList elems

/-- `extractPatternNames` over an object pattern's property list. -/
def extractPatternNamesList : List Pat → List String
  | [] => []
  | p :: ps => extractPatternNames p ++ extractPatternNamesList ps

/-- `extractPatternNames` over an array pattern's element list (holes are
skipped). -/
def extractPatternNamesOptList : List (Option Pat) → List String
  | [] => []
  | none :: ps => extractPatternNamesOptList ps
  | some p :: ps => extractPatternNames p ++ extractPatternNamesOptList ps

end

/-- Names extracted from an optional declarator id (`extractPatternNames`
returns immediately on a null node). -/
def extractNamesOfId : Option Pat → List String
  | some p => extractPatternNames p
  | none => []

/-- Top-level names one statement defines (the per-statement `names` list
the trace stage pushes onto `stmtDefs`). -/
def stmtDefNames : Stmt → List String
  | .variableDeclaration decls =>
    decls.foldl (fun acc d => acc ++ extractNamesOfId d.id) []
  | .functionDeclaration (some n) => [n]
  | .classDeclaration (some n) => [n]
  | .exportNamedDeclaration (some (.variableDeclaration decls)) =>
    decls.foldl (fun acc d => acc ++ extractNamesOfId d.id) []
  | .exportNamedDeclaration (some (.functionDeclaration (some n))) => [n]
  | .exportNamedDeclaration (some (.classDeclaration (some n))) => [n]
  | _ => []

/-- `stmtDefs`: index → names defined there. -/
def stmtDefs (body : List TopStmt) : List (List String) :=
  body.map (fun ts => stmtDefNames ts.node)

/-- `definedBy`: the trace stage's name → statement-index map, built with
`definedBy.set(name, i)` for every statement in order. -/
def buildDefinedBy (body : List TopStmt) : List (String × Nat) :=
  body.enum.foldl
    (fun db p =>
      (stmtDefNames p.2.node).foldl (fun db n => mapSet db n p.1) db)
    []

/-- Names defined by statement `k` of the body (`[]` out of range). -/
def defsAt (body : List TopStmt) (k : Nat) : List String :=
  ((body[k]?).map (fun ts => stmtDefNames ts.node)).getD []

/-! ## Reference graph — trace stage

Translation of the dependency-tracing loop: two adjacency sets per
statement, updated in lockstep for each identifier whose defining
statement is another statement and which the current statement does not
itself define. -/

/-- Adjacency sets of one statement in the reference graph. -/
structure GNode where
  refs_out : Finset Nat
  refs_in : Finset Nat
deriving DecidableEq

/-- `graph[i].refs_out` (empty for an out-of-range index). -/
def refsOut (g : List GNode) (i : Nat) : Finset Nat :=
  (g[i]?.map (fun n => n.refs_out)).getD ∅

/-- `graph[i].refs_in` (empty for an out-of-range index). -/
def refsIn (g : List GNode) (i : Nat) : Finset Nat :=
  (g[i]?.map (fun n => n.refs_in)).getD ∅

/-- Record the edge i→d: `graph[i].refs_out.add(d)` and
`graph[d].refs_in.add(i)`. -/
def addRef (g : List GNode) (i d : Nat) : List GNode :=
  (g.modify (fun n => { n with refs_out := insert d n.refs_out }) i).modify
    (fun n => { n with refs_in := insert i n.refs_in }) d

/-- The dependency-tracing loop: for each statement `i` and each
identifier occurrence `n` in it, add the edge to `definedBy.get(n)` when
defined elsewhere and not shadowed by `i`'s own definitions. -/
def buildGraph (body : List TopStmt) (db : List (String × Nat)) :
    List GNode :=
  body.enum.foldl
    (fun g p =>
      let selfNames := stmtDefNames p.2.node
      p.2.idents.foldl
        (fun g n =>
          match mapGet db n with
          | some d =>
            if d ≠ p.1 ∧ n ∉ selfNames then addRef g p.1 d else g
          | none => g)
        g)
    (body.map (fun _ => ⟨∅, ∅⟩))

/-! ## Module identification state

`stmtInfo` records and `modules` as in demini-trace; `moduleId = -1`
means unassigned, exactly as in the source. -/

/-- Per-statement record (`stmtInfo[i]`). -/
structure StmtInfo where
  index : Nat
  wrapKind : String
  moduleId : Int
  names : List String
  startLine : Nat
  endLine : Nat
  start : Nat
  stop : Nat
deriving DecidableEq, Repr

/-- One identified module (graph fields are computed separately by
`moduleDepsOut` / `moduleDepsIn`). -/
structure Module where
  id : Int
  wrapKind : String
  statements : List Nat
  primary : Nat
deriving DecidableEq, Repr

/-- Mutable state threaded through the identification passes. -/
structure TraceState where
  infos : List StmtInfo
  modules : List Module
  nextId : Int
deriving DecidableEq, Repr

/-- `stmtInfo[k].moduleId`, `-1` when out of range (never read out of
range by the source). -/
def modIdAt (infos : List StmtInfo) (k : Nat) : Int :=
  ((infos[k]?).map (fun si => si.moduleId)).getD (-1)

/-- `stmtInfo[k].wrapKind`, `""` when out of range (never read out of
range by the source; `""` is not a WrapKind so out-of-range reads satisfy
no condition). -/
def wrapAt (infos : List StmtInfo) (k : Nat) : String :=
  ((infos[k]?).map (fun si => si.wrapKind)).getD ""

/-- `stmtInfo[k].names`, `[]` when out of range. -/
def namesAt (infos : List StmtInfo) (k : Nat) : List String :=
  ((infos[k]?).map (fun si => si.names)).getD []

/-- `ast.body[i]` viewed as a statement node (dummy for out-of-range). -/
def nodeAt (body : List TopStmt) (i : Nat) : Stmt :=
  ((body[i]?).map (fun ts => ts.node)).getD .otherStmt

/-- Write `stmtInfo[k].moduleId = v`. -/
def setModId (infos : List StmtInfo) (k : Nat) (v : Int) : List StmtInfo :=
  infos.modify (fun si => { si with moduleId := v }) k

/-- Write `stmtInfo[k].wrapKind = w`. -/
def setWrap (infos : List StmtInfo) (k : Nat) (w : String) :
    List StmtInfo :=
  infos.modify (fun si => { si with wrapKind := w }) k

/-- The initial `stmtInfo` array built before module identification. -/
def initInfos (body : List TopStmt) (helpers : HelperMap) (code : Code) :
    List StmtInfo :=
  body.enum.map
    (fun p =>
      { index := p.1,
        wrapKind := classifyStmtWrapKind p.2.node p.1 helpers code,
        moduleId := -1,
        names := stmtDefNames p.2.node,
        startLine := p.2.startLine,
        endLine := p.2.endLine,
        start := p.2.start,
        stop := p.2.stop })

/-! ## Preamble extension (spec sect. 4.7) -/

/-- Index of the first statement whose WrapKind is CJS or ESM
(`stmtInfo.length` when none exists). -/
def firstFactoryIdx (infos : List StmtInfo) : Nat :=
  match infos.findIdx? (fun si => si.wrapKind = "CJS" ∨ si.wrapKind = "ESM")
    with
  | some i => i
  | none => infos.length

/-- Reclassify every `None` statement before the first factory to
`RUNTIME`. -/
def preambleExtend (infos : List StmtInfo) : List StmtInfo :=
  let f := firstFactoryIdx infos
  infos.mapIdx
    (fun i si =>
      if i < f ∧ si.wrapKind = "None" then { si with wrapKind := "RUNTIME" }
      else si)

/-! ## The five identification passes -/

/-- Common pattern of the passes: set `moduleId = nextModuleId` on a list
of statements, push the module, increment `nextModuleId`. -/
def pushModule (st : TraceState) (wk : String) (stmts : List Nat)
    (primary : Nat) : TraceState :=
  { infos := stmts.foldl (fun inf k => setModId inf k st.nextId) st.infos,
    modules := st.modules ++
      [{ id := st.nextId, wrapKind := wk, statements := stmts,
         primary := primary }],
    nextId := st.nextId + 1 }

/-- Pass 1: all RUNTIME statements form one module (if any). -/
def pass1 (st : TraceState) : TraceState :=
  let runtimeStmts :=
    (List.range st.infos.length).filter
      (fun i => wrapAt st.infos i = "RUNTIME")
  if runtimeStmts = [] then st
  else pushModule st "RUNTIME" runtimeStmts (runtimeStmts.headD 0)

/-- Pass 2: each CJS statement becomes its own module. -/
def pass2 (st : TraceState) : TraceState :=
  (List.range st.infos.length).foldl
    (fun st i =>
      if wrapAt st.infos i = "CJS" then pushModule st "CJS" [i] i else st)
    st

/-- Is `ast.body[i]` an `__esm` factory call (some declarator's
initializer is a call whose callee the helper map sends to `__esm`)? -/
def isEsmFactory (helpers : HelperMap) (stmt : Stmt) : Bool :=
  match stmt with
  | .variableDeclaration decls =>
    decls.any (fun d => declInitCalleeHelper helpers d = some "__esm")
  | _ => false

/-- The pass-3 back-trace: absorb, from index `j` downward, each
contiguous statement that is unassigned and has WrapKind `None`, giving it
`moduleId = nid` and WrapKind `ESM`.  Returns the updated infos and the
absorbed indices (in descending order, as pushed by the source loop). -/
def absorbFrom (nid : Int) (infos : List StmtInfo) (j : Nat) :
    List StmtInfo × List Nat :=
  if modIdAt infos j ≠ -1 ∨ wrapAt infos j ≠ "None" then (infos, [])
  else
    let infos1 := setWrap (setModId infos j nid) j "ESM"
    match j with
    | 0 => (infos1, [0])
    | j' + 1 =>
      let p := absorbFrom nid infos1 j'
      (p.1, (j' + 1) :: p.2)

/-- One iteration of pass 3 at statement `i`. -/
def pass3Step (body : List TopStmt) (helpers : HelperMap)
    (st : TraceState) (i : Nat) : TraceState :=
  if wrapAt st.infos i = "ESM" then
    if isEsmFactory helpers (nodeAt body i) then
      let infos1 := setModId st.infos i st.nextId
      let pr :=
        if i = 0 then (infos1, ([] : List Nat))
        else absorbFrom st.nextId infos1 (i - 1)
      let modStmts := List.insertionSort (fun a b => a ≤ b) (i :: pr.2)
      { infos := pr.1,
        modules := st.modules ++
          [{ id := st.nextId, wrapKind := "ESM", statements := modStmts,
             primary := i }],
        nextId := st.nextId + 1 }
    else
      pushModule st "ESM" [i] i
  else st

/-- Pass 3: ESM factories with back-tracing; other ESM statements become
single-statement modules. -/
def pass3 (body : List TopStmt) (helpers : HelperMap) (st : TraceState) :
    TraceState :=
  (List.range st.infos.length).foldl (pass3Step body helpers) st

/-- Factory-name registry: every name defined by a statement of a CJS or
ESM module. -/
def factoryNames (st : TraceState) : List String :=
  (st.modules.filter
      (fun m => m.wrapKind = "CJS" ∨ m.wrapKind = "ESM")).foldl
    (fun acc m =>
      m.statements.foldl (fun acc si => acc ++ namesAt st.infos si) acc)
    []

/-- Is this statement a bare factory invocation
(`var x = require_foo()` or `init_bar();`)? -/
def isImportStmt (fns : List String) (stmt : Stmt) : Bool :=
  match stmt with
  | .variableDeclaration decls =>
    decls.any
      (fun d =>
        match d.init with
        | some init =>
          match init.shape with
          | .callExpression (some c) => fns.contains c
          | _ => false
        | none => false)
  | .expressionStatement e =>
    match e.shape with
    | .callExpression (some c) => fns.contains c
    | _ => false
  | _ => false

/-- Pass 4: reclassify still-unassigned `None` statements that invoke a
factory name to WrapKind `IMPORT` (they stay unassigned). -/
def pass4 (body : List TopStmt) (st : TraceState) : TraceState :=
  let fns := factoryNames st
  { st with
    infos :=
      (List.range st.infos.length).foldl
        (fun infos i =>
          if modIdAt infos i = -1 ∧ wrapAt infos i = "None" ∧
              isImportStmt fns (nodeAt body i) then
            setWrap infos i "IMPORT"
          else infos)
        st.infos }

/-! ## Pass 5: Jaccard clustering with import super-nodes -/

/-- Module fingerprint of statement `s`: module ids of already-assigned
statements it references. -/
def computeFingerprint (graph : List GNode) (infos : List StmtInfo)
    (s : Nat) : Finset Int :=
  ((refsOut graph s).filter (fun r => modIdAt infos r ≠ -1)).image
    (fun r => modIdAt infos r)

/-- Jaccard similarity on module-id sets, by inclusion–exclusion exactly
as the source computes it (`intersection / (a.size + b.size −
intersection)`, both-empty ⇒ 1).  Modelled over `Rat`. -/
def jaccard (a b : Finset Int) : Rat :=
  if a.card = 0 ∧ b.card = 0 then 1
  else
    ((a ∩ b).card : Rat) /
      ((a.card : Rat) + (b.card : Rat) - ((a ∩ b).card : Rat))

/-- Maximal contiguous runs of unassigned statements (assigned statements
break runs), as built by the source's `currentRun` loop. -/
def runsOf (infos : List StmtInfo) : List (List Nat) :=
  let r :=
    (List.range infos.length).foldl
      (fun (acc : List (List Nat) × List Nat) i =>
        if modIdAt infos i = -1 then (acc.1, acc.2 ++ [i])
        else if acc.2 = [] then acc
        else (acc.1 ++ [acc.2], []))
      ([], [])
  if r.2 = [] then r.1 else r.1 ++ [r.2]

/-- An element of a run: a single statement or an import super-node, with
its (merged) fingerprint. -/
structure Element where
  indices : List Nat
  fingerprint : Finset Int
deriving DecidableEq

/-- Body of `buildElements`, fuelled by the run length (the source's
while-loop index bound), which keeps the recursion structural. -/
def buildElementsAux (graph : List GNode) (infos : List StmtInfo) :
    Nat → List Nat → List Element
  | 0, _ => []
  | _, [] => []
  | fuel + 1, i :: rest =>
    if wrapAt infos i = "IMPORT" then
      let superNode :=
        i :: rest.takeWhile (fun k => wrapAt infos k = "IMPORT")
      let merged :=
        superNode.foldl
          (fun acc si => acc ∪ computeFingerprint graph infos si) ∅
      ⟨superNode, merged⟩ ::
        buildElementsAux graph infos fuel
          (rest.dropWhile (fun k => wrapAt infos k = "IMPORT"))
    else
      ⟨[i], computeFingerprint graph infos i⟩ ::
        buildElementsAux graph infos fuel rest

/-- Build a run's element list: consecutive IMPORT statements collapse
into one super-node with merged fingerprint; any other statement is a
singleton element. -/
def buildElements (graph : List GNode) (infos : List StmtInfo)
    (run : List Nat) : List Element :=
  buildElementsAux graph infos run.length run

/-- The cluster's merged fingerprint (recomputed as the union of its
elements' fingerprints, as in the source loop). -/
def clusterFp (cl : List Element) : Finset Int :=
  cl.foldl (fun acc el => acc ∪ el.fingerprint) ∅

/-- `flushCluster`: assign all the cluster's statement indices to a fresh
module whose WrapKind is IMPORT when every statement is IMPORT and None
otherwise. -/
def flushCluster (st : TraceState) (cl : List Element) : TraceState :=
  let allIndices := cl.flatMap (fun el => el.indices)
  let wk :=
    if allIndices.all (fun si => wrapAt st.infos si = "IMPORT") then
      "IMPORT"
    else "None"
  pushModule st wk allIndices (allIndices.headD 0)

/-- The clustering loop over a run's remaining elements, carrying the
current cluster; flushes on similarity below the 0.5 threshold and once
more after the last element. -/
def processElements (st : TraceState) (cluster : List Element) :
    List Element → TraceState
  | [] => flushCluster st cluster
  | e :: rest =>
    if jaccard (clusterFp cluster) e.fingerprint ≥ 1 / 2 then
      processElements st (cluster ++ [e]) rest
    else
      processElements (flushCluster st cluster) [e] rest

/-- Process one contiguous run: build its elements, then cluster them
left to right. -/
def processRun (graph : List GNode) (st : TraceState) (run : List Nat) :
    TraceState :=
  match buildElements graph st.infos run with
  | [] => st
  | e :: rest => processElements st [e] rest

/-- Pass 5: Jaccard clustering of each contiguous unassigned run. -/
def pass5 (graph : List GNode) (st : TraceState) : TraceState :=
  (runsOf st.infos).foldl (processRun graph) st

/-! ## Renumber post-pass and module graph -/

/-- `Math.min(...mod.statements)` (modules are never empty when this is
evaluated). -/
def minStmt (m : Module) : Nat :=
  m.statements.min?.getD 0

/-- Renumber modules by source position: stable-sort by smallest
statement index (V8's Array.prototype.sort is stable, modelled by a
stable insertion sort), reassign ids `0..N−1`, remap every assigned
statement's `moduleId` through the old-id → new-id map. -/
def renumber (st : TraceState) : TraceState :=
  let sorted :=
    List.insertionSort (fun a b => minStmt a ≤ minStmt b) st.modules
  let remap : Int → Int := fun old =>
    match sorted.findIdx? (fun m => m.id = old) with
    | some k => (k : Int)
    | none => -1
  { infos :=
      st.infos.map
        (fun si =>
          if si.moduleId ≠ -1 then { si with moduleId := remap si.moduleId }
          else si),
    modules := sorted.mapIdx (fun idx m => { m with id := (idx : Int) }),
    nextId := st.nextId }

/-- Module-level outgoing dependencies: module ids reached by any
statement's `refs_out`, the module's own id excluded. -/
def moduleDepsOut (infos : List StmtInfo) (graph : List GNode)
    (m : Module) : Finset Int :=
  m.statements.foldl
    (fun acc s =>
      acc ∪
        ((refsOut graph s).filter (fun r => modIdAt infos r ≠ m.id)).image
          (fun r => modIdAt infos r))
    ∅

/-- Module-level incoming dependencies, symmetrically over `refs_in`. -/
def moduleDepsIn (infos : List StmtInfo) (graph : List GNode)
    (m : Module) : Finset Int :=
  m.statements.foldl
    (fun acc s =>
      acc ∪
        ((refsIn graph s).filter (fun r => modIdAt infos r ≠ m.id)).image
          (fun r => modIdAt infos r))
    ∅

/-! ## The full trace pipeline -/

/-- Everything demini-trace derives from the parsed body and source text,
up to and including the renumber post-pass. -/
structure TraceResult where
  helpers : HelperMap
  graph : List GNode
  state : TraceState

/-- State before any pass: classified `stmtInfo` with the preamble
extension applied, no modules, `nextModuleId = 0`. -/
def initialState (body : List TopStmt) (helpers : HelperMap)
    (code : Code) : TraceState :=
  { infos := preambleExtend (initInfos body helpers code),
    modules := [],
    nextId := 0 }

/-- The complete module-identification pipeline of demini-trace. -/
def runTrace (body : List TopStmt) (code : Code) : TraceResult :=
  let helpers := detectRuntimeHelpersTrace body code
  let db := buildDefinedBy body
  let graph := buildGraph body db
  let st0 := initialState body helpers code
  { helpers := helpers,
    graph := graph,
    state :=
      renumber (pass5 graph (pass4 body (pass3 body helpers
        (pass2 (pass1 st0))))) }

/-! ## Classify stage: annotation loop byte accounting and run tail

Translation of the demini-classify main flow from the annotation loop to
the two `writeFileSync` calls: running statement/gap byte totals, the
byte-accounting verification, the console diagnostic, and the output
writes (which the source performs unconditionally, after the check). -/

/-- Accumulator of the annotation loop: statement byte total, gap byte
total, `lastEnd`. -/
structure AccountAcc where
  stmtBytes : Nat
  gapBytes : Nat
  lastEnd : Nat
deriving DecidableEq, Repr

/-- One iteration of the annotation loop: add the gap before the node (if
any), then the node's source slice. -/
def accountStep (code : Code) (acc : AccountAcc) (node : TopStmt) :
    AccountAcc :=
  let g :=
    if node.start > acc.lastEnd then
      (sliceCode code acc.lastEnd node.start).length
    else 0
  { stmtBytes := acc.stmtBytes + (sliceCode code node.start node.stop).length,
    gapBytes := acc.gapBytes + g,
    lastEnd := node.stop }

/-- The annotation loop over all top-level statements. -/
def accountLoop (code : Code) (body : List TopStmt) : AccountAcc :=
  body.foldl (accountStep code) ⟨0, 0, 0⟩

/-- Observable outcome of one classify run (accounting totals, the match
flag, the accounting console lines, and the files written). -/
structure ClassifyOutcome where
  total_bytes_statements : Nat
  total_bytes_gaps : Nat
  accountingMatch : Bool
  logLines : List String
  filesWritten : List String
  stats_byte_accounting_match : Bool
deriving DecidableEq, Repr

/-- The classify run from the annotation loop onward: totals, trailing
gap, byte-accounting verification, diagnostic log, then the two
unconditional output writes (`classifiedPath`, then `statsPath` carrying
`byte_accounting_match`). -/
def classifyRun (code : Code) (body : List TopStmt) : ClassifyOutcome :=
  let a := accountLoop code body
  let gaps :=
    if a.lastEnd < code.length then
      a.gapBytes + (code.drop a.lastEnd).length
    else a.gapBytes
  let accountedBytes := a.stmtBytes + gaps
  let accountingMatch : Bool := accountedBytes = code.length
  { total_bytes_statements := a.stmtBytes,
    total_bytes_gaps := gaps,
    accountingMatch := accountingMatch,
    logLines :=
      ["=== Byte Accounting ==="] ++
      [if accountingMatch then "Match:             ✅ 100%"
       else "Match:             ❌ MISMATCH"] ++
      (if accountingMatch then [] else ["DELTA: bytes unaccounted"]),
    filesWritten := ["01_classified", "01_stats"],
    stats_byte_accounting_match := accountingMatch }

/-- The parser's statement-layout invariant (spec sect. 3): ranges are
well-formed, within the body, pairwise disjoint and ordered
(`start[i+1] ≥ end[i]`). -/
def ParserInvariant (code : Code) (body : List TopStmt) : Prop :=
  (∀ ts ∈ body, ts.start ≤ ts.stop) ∧
  (∀ ts ∈ body, ts.stop ≤ code.length) ∧
  List.Chain' (fun a b => a.stop ≤ b.start) body

/-! ## Spec-side description of pass 5 clustering

A second definition following the spec's words (sect. 4.8, pass 5), to be
compared with the source-translated `processElements`: greedy
left-to-right partition of a run's elements, extending the cluster
exactly when the Jaccard similarity of the merged cluster fingerprint
with the next element's fingerprint is at least 0.5, flushing otherwise
and after the last element. -/

/-- Greedy clustering of the remaining elements given the current
cluster, per the spec's words. -/
def specGreedyClustersAux (cl : List Element) :
    List Element → List (List Element)
  | [] => [cl]
  | e :: rest =>
    if jaccard (clusterFp cl) e.fingerprint ≥ 1 / 2 then
      specGreedyClustersAux (cl ++ [e]) rest
    else
      cl :: specGreedyClustersAux [e] rest

/-- Greedy left-to-right clustering of a run's elements, per the spec's
words: the first element starts the first cluster. -/
def specGreedyClusters : List Element → List (List Element)
  | [] => []
  | e :: rest => specGreedyClustersAux [e] rest

/-- The pipeline state after passes 1–3 (before import detection),
exposed so pass-3 behaviour can be stated on its own. -/
def afterPass3 (body : List TopStmt) (code : Code) : TraceState :=
  let helpers := detectRuntimeHelpersTrace body code
  pass3 body helpers (pass2 (pass1 (initialState body helpers code)))

/-! ## Concrete inputs

Concrete parsed bundles (source text plus the acorn AST the parser
adapter would produce for it, with real byte offsets) used to evaluate
the engine at specific inputs. -/

/-- Source: a minified `__toESM` adapter bundle,
`var t=m=>(\x7b__esModule:true\x7d);var q=t(0);`. -/
def c1Code : Code := "var t=m=>(\x7b__esModule:true\x7d);var q=t(0);".toList

/-- Statement 0 of `c1Code`: the `__toESM` helper definition. -/
def c1Helper : TopStmt :=
  { node := .variableDeclaration
      [⟨some (.ident "t"),
        some (.mk 6 28 (.arrowFunctionExpression 1 (.mk 10 27 .otherExpr)))⟩],
    start := 0, stop := 29, startLine := 1, endLine := 1,
    idents := ["t", "m", "__esModule"] }

/-- Statement 1 of `c1Code`: `var q=t(0);`, a call of the detected
`__toESM` helper. -/
def c1Adapter : TopStmt :=
  { node := .variableDeclaration
      [⟨some (.ident "q"), some (.mk 35 39 (.callExpression (some "t")))⟩],
    start := 29, stop := 40, startLine := 1, endLine := 1,
    idents := ["q", "t"] }

/-- Parsed body of `c1Code`. -/
def c1Body : List TopStmt := [c1Helper, c1Adapter]

/-- Source of the ESM back-trace scenario (spec sect. 8, scenario 2): a
detected `__esm` helper `v`, then `var a;`, `var b;`, `function f()\x7b\x7d`,
then the factory `var m=v(()=>\x7ba=b=f();\x7d);`. -/
def c2Code : Code :=
  ("var v=(f,r)=>()=>(f&&(r=f(f = 0)),r);var a;var b;function f()\x7b\x7d" ++
    "var m=v(()=>\x7ba=b=f();\x7d);").toList

/-- Statement 0 of `c2Code`: the `__esm` helper definition. -/
def c2S0 : TopStmt :=
  { node := .variableDeclaration
      [⟨some (.ident "v"),
        some (.mk 6 36 (.arrowFunctionExpression 2
          (.mk 13 36 (.arrowFunctionExpression 0 (.mk 18 35 .otherExpr)))))⟩],
    start := 0, stop := 37, startLine := 1, endLine := 1,
    idents := ["v", "f", "r", "f", "r", "f", "f", "r"] }

/-- Statement 1 of `c2Code`: `var a;`. -/
def c2S1 : TopStmt :=
  { node := .variableDeclaration [⟨some (.ident "a"), none⟩],
    start := 37, stop := 43, startLine := 1, endLine := 1, idents := ["a"] }

/-- Statement 2 of `c2Code`: `var b;`. -/
def c2S2 : TopStmt :=
  { node := .variableDeclaration [⟨some (.ident "b"), none⟩],
    start := 43, stop := 49, startLine := 1, endLine := 1, idents := ["b"] }

/-- Statement 3 of `c2Code`: `function f()\x7b\x7d`. -/
def c2S3 : TopStmt :=
  { node := .functionDeclaration (some "f"),
    start := 49, stop := 63, startLine := 1, endLine := 1, idents := ["f"] }

/-- Statement 4 of `c2Code`: the factory `var m=v(()=>\x7ba=b=f();\x7d);`. -/
def c2S4 : TopStmt :=
  { node := .variableDeclaration
      [⟨some (.ident "m"), some (.mk 69 86 (.callExpression (some "v")))⟩],
    start := 63, stop := 87, startLine := 1, endLine := 1,
    idents := ["m", "v", "a", "b", "f"] }

/-- Parsed body of `c2Code`. -/
def c2Body : List TopStmt := [c2S0, c2S1, c2S2, c2S3, c2S4]

/-- Source with a rebound top-level name: `var x=1;var x=2;`. -/
def c3Code : Code := "var x=1;var x=2;".toList

/-- Parsed body of `c3Code`: two statements, both binding `x`. -/
def c3Body : List TopStmt :=
  [{ node := .variableDeclaration
       [⟨some (.ident "x"), some (.mk 6 7 .otherExpr)⟩],
     start := 0, stop := 8, startLine := 1, endLine := 1, idents := ["x"] },
   { node := .variableDeclaration
       [⟨some (.ident "x"), some (.mk 14 15 .otherExpr)⟩],
     start := 8, stop := 16, startLine := 1, endLine := 1, idents := ["x"] }]

/-- A ten-character body. -/
def c8Code : Code := "0123456789".toList

/-- A body whose statement ranges overlap (violating the parser
invariant), so the byte accounting cannot match. -/
def c8Body : List TopStmt :=
  [⟨.otherStmt, 0, 5, 1, 1, []⟩, ⟨.otherStmt, 3, 8, 1, 1, []⟩]

/-- Source of a minified `__esm` helper whose inner body contains `=0`
with no surrounding whitespace. -/
def c10MinCode : Code := "var e=(t,r)=>()=>(t&&(r=t(t=0)),r);".toList

/-- Parsed body of `c10MinCode`. -/
def c10MinBody : List TopStmt :=
  [{ node := .variableDeclaration
       [⟨some (.ident "e"),
         some (.mk 6 34 (.arrowFunctionExpression 2
           (.mk 13 34 (.arrowFunctionExpression 0 (.mk 18 33 .otherExpr)))))⟩],
     start := 0, stop := 35, startLine := 1, endLine := 1,
     idents := ["e", "t", "r", "t", "r", "t", "t", "r"] }]

/-- Statement 0 text of the non-minified helper quartet. -/
def q0Text : String :=
  "var __commonJS = (cb, mod) => () => (mod || cb((mod = \x7b exports: " ++
    "\x7b\x7d \x7d).exports, mod), mod.exports);"

/-- Statement 1 text of the non-minified helper quartet. -/
def q1Text : String := "var __esm = (fn, res) => () => (fn && (res = fn(fn = 0)), res);"

/-- Statement 2 text of the non-minified helper quartet. -/
def q2Text : String :=
  "var __toESM = function(mod) \x7b return mod.__esModule ? mod : mod; \x7d;"

/-- Statement 3 text of the non-minified helper quartet. -/
def q3Text : String :=
  "var __copyProps = function(to, from) \x7b for (let key of " ++
    "Object.getOwnPropertyNames(from)) Object.defineProperty(to, key, \x7b\x7d); \x7d;"

/-- Source of the non-minified helper quartet: the four esbuild runtime
helpers under their literal names. -/
def quartetCode : Code := (q0Text ++ q1Text ++ q2Text ++ q3Text).toList

/-- Statement 0 of `quartetCode`: the literal `__commonJS` helper. -/
def quartetS0 : TopStmt :=
  { node := .variableDeclaration
      [⟨some (.ident "__commonJS"),
        some (.mk 17 (q0Text.length - 1)
          (.arrowFunctionExpression 2
            (.mk 30 (q0Text.length - 1)
              (.arrowFunctionExpression 0
                (.mk 37 (q0Text.length - 2) .otherExpr)))))⟩],
    start := 0, stop := q0Text.length, startLine := 1, endLine := 1,
    idents := [] }

/-- Statement 1 of `quartetCode`: the literal `__esm` helper. -/
def quartetS1 : TopStmt :=
  { node := .variableDeclaration
      [⟨some (.ident "__esm"),
        some (.mk (q0Text.length + 12) (q0Text.length + q1Text.length - 1)
          (.arrowFunctionExpression 2
            (.mk (q0Text.length + 25) (q0Text.length + q1Text.length - 1)
              (.arrowFunctionExpression 0
                (.mk (q0Text.length + 32)
                  (q0Text.length + q1Text.length - 2) .otherExpr)))))⟩],
    start := q0Text.length, stop := q0Text.length + q1Text.length,
    startLine := 1, endLine := 1, idents := [] }

/-- Statement 2 of `quartetCode`: the literal `__toESM` helper. -/
def quartetS2 : TopStmt :=
  { node := .variableDeclaration
      [⟨some (.ident "__toESM"),
        some (.mk (q0Text.length + q1Text.length + 14)
          (q0Text.length + q1Text.length + q2Text.length - 1)
          .functionExpression)⟩],
    start := q0Text.length + q1Text.length,
    stop := q0Text.length + q1Text.length + q2Text.length,
    startLine := 1, endLine := 1, idents := [] }

/-- Statement 3 of `quartetCode`: the literal `__copyProps` helper. -/
def quartetS3 : TopStmt :=
  { node := .variableDeclaration
      [⟨some (.ident "__copyProps"),
        some (.mk (q0Text.length + q1Text.length + q2Text.length + 18)
          (q0Text.length + q1Text.length + q2Text.length +
            q3Text.length - 1)
          .functionExpression)⟩],
    start := q0Text.length + q1Text.length + q2Text.length,
    stop := q0Text.length + q1Text.length + q2Text.length + q3Text.length,
    startLine := 1, endLine := 1, idents := [] }

/-- Parsed body of `quartetCode`. -/
def quartetBody : List TopStmt :=
  [quartetS0, quartetS1, quartetS2, quartetS3]

/-! ## Proof-state invariant

The well-formedness invariant maintained by every identification pass:
module ids are fresh and distinct, statement lists are well-formed, and
each module's statement list is exactly the set of statements carrying
its id (the fibre property). -/

structure Inv (N : Nat) (st : TraceState) : Prop where
  len : st.infos.length = N
  nextNonneg : 0 ≤ st.nextId
  idNonneg : ∀ m ∈ st.modules, 0 ≤ m.id
  idLt : ∀ m ∈ st.modules, m.id < st.nextId
  idsNodup : (st.modules.map Module.id).Nodup
  stmtsLt : ∀ m ∈ st.modules, ∀ s ∈ m.statements, s < N
  stmtsNodup : ∀ m ∈ st.modules, m.statements.Nodup
  stmtsNe : ∀ m ∈ st.modules, m.statements ≠ []
  fiber : ∀ m ∈ st.modules, ∀ s, s < N →
    (s ∈ m.statements ↔ modIdAt st.infos s = m.id)
  modIdLtNext : ∀ s, s < N → modIdAt st.infos s < st.nextId
  assignedExists : ∀ s, s < N → modIdAt st.infos s ≠ -1 →
    ∃ m ∈ st.modules, m.id = modIdAt st.infos s

/-! # Theorems -/

/-! ## Map and accessor infrastructure -/

theorem find?_overwrite_self {β : Type} (k : String) (v : β) :
    ∀ m : List (String × β),
      (m.map (fun p => if p.1 = k then (k, v) else p)).find?
          (fun p => p.1 = k) =
        if m.any (fun p => p.1 = k) then some (k, v) else none := by
  intro m
  induction m with
  | nil => simp
  | cons p rest ih =>
    by_cases hp : p.1 = k
    · rw [List.map_cons, if_pos hp,
        List.find?_cons_of_pos _ (by simp), List.any_cons,
        if_pos (by simp [hp])]
    · rw [List.map_cons, if_neg hp,
        List.find?_cons_of_neg _ (by simpa using hp), ih, List.any_cons]
      have : (decide (p.1 = k) || rest.any fun p => decide (p.1 = k)) =
          (rest.any fun p => decide (p.1 = k)) := by simp [hp]
      rw [this]

theorem find?_overwrite_ne {β : Type} (k k' : String) (v : β)
    (h : k' ≠ k) :
    ∀ m : List (String × β),
      (m.map (fun p => if p.1 = k then (k, v) else p)).find?
          (fun p => p.1 = k') =
        m.find? (fun p => p.1 = k') := by
  intro m
  induction m with
  | nil => simp
  | cons p rest ih =>
    by_cases hp : p.1 = k
    · have hk' : ¬((k, v).1 = k') := fun hc => h hc.symm
      have hpk' : ¬(p.1 = k') := by rw [hp]; exact fun hc => h hc.symm
      rw [List.map_cons, if_pos hp,
        List.find?_cons_of_neg _ (by simpa using hk'),
        List.find?_cons_of_neg _ (by simpa using hpk'), ih]
    · by_cases hp' : p.1 = k'
      · rw [List.map_cons, if_neg hp,
          List.find?_cons_of_pos _ (by simpa using hp'),
          List.find?_cons_of_pos _ (by simpa using hp')]
      · rw [List.map_cons, if_neg hp,
          List.find?_cons_of_neg _ (by simpa using hp'),
          List.find?_cons_of_neg _ (by simpa using hp'), ih]

theorem mapGet_mapSet {β : Type} (m : List (String × β)) (k k' : String)
    (v : β) :
    mapGet (mapSet m k v) k' = if k' = k then some v else mapGet m k' := by
  unfold mapSet
  by_cases hany : m.any (fun p => p.1 = k)
  · rw [if_pos hany]
    by_cases h : k' = k
    · subst h
      unfold mapGet
      rw [find?_overwrite_self k' v m, if_pos hany, if_pos rfl]
      rfl
    · unfold mapGet
      rw [find?_overwrite_ne k k' v h m, if_neg h]
  · rw [if_neg hany]
    by_cases h : k' = k
    · subst h
      have hnone : m.find? (fun p => decide (p.1 = k')) = none := by
        rw [List.find?_eq_none]
        intro x hx
        simp only [decide_eq_true_eq]
        intro hc
        exact hany (List.any_eq_true.mpr ⟨x, hx, by simp [hc]⟩)
      unfold mapGet
      rw [List.find?_append, hnone, if_pos rfl]
      simp [List.find?]
    · have hone : List.find? (fun p => decide (p.1 = k')) [(k, v)] =
          none :=
        List.find?_cons_of_neg _
          (by simpa using fun hc : k = k' => h hc.symm)
      unfold mapGet
      rw [List.find?_append, hone, if_neg h]
      simp

theorem getElem?_some_lt {A : Type} {l : List A} {i : Nat} {a : A}
    (h : l[i]? = some a) : i < l.length := by
  by_contra hge
  rw [List.getElem?_eq_none (by omega)] at h
  cases h

theorem length_setModId (infos : List StmtInfo) (k : Nat) (v : Int) :
    (setModId infos k v).length = infos.length := by
  simp [setModId]

theorem length_setWrap (infos : List StmtInfo) (k : Nat) (w : String) :
    (setWrap infos k w).length = infos.length := by
  simp [setWrap]

theorem modIdAt_setModId (infos : List StmtInfo) (k k' : Nat) (v : Int) :
    modIdAt (setModId infos k v) k' =
      if k' = k ∧ k < infos.length then v else modIdAt infos k' := by
  unfold modIdAt setModId
  rw [List.getElem?_modify]
  by_cases h : k = k'
  · subst h
    cases hx : infos[k]? with
    | none =>
      have hl : ¬ k < infos.length := by
        by_contra hlt
        rw [List.getElem?_eq_getElem hlt] at hx
        cases hx
      simp [hl]
    | some si =>
      have hl : k < infos.length := getElem?_some_lt hx
      simp [hl]
  · have hne : ¬(k' = k ∧ k < infos.length) := fun hc => h hc.1.symm
    rw [if_neg hne]
    cases hx : infos[k']? <;> simp [h]

theorem modIdAt_setWrap (infos : List StmtInfo) (k k' : Nat)
    (w : String) :
    modIdAt (setWrap infos k w) k' = modIdAt infos k' := by
  unfold modIdAt setWrap
  rw [List.getElem?_modify]
  by_cases h : k = k' <;> cases hx : infos[k']? <;> simp [h]

theorem wrapAt_setWrap (infos : List StmtInfo) (k k' : Nat) (w : String) :
    wrapAt (setWrap infos k w) k' =
      if k' = k ∧ k < infos.length then w else wrapAt infos k' := by
  unfold wrapAt setWrap
  rw [List.getElem?_modify]
  by_cases h : k = k'
  · subst h
    cases hx : infos[k]? with
    | none =>
      have hl : ¬ k < infos.length := by
        by_contra hlt
        rw [List.getElem?_eq_getElem hlt] at hx
        cases hx
      simp [hl]
    | some si =>
      have hl : k < infos.length := getElem?_some_lt hx
      simp [hl]
  · have hne : ¬(k' = k ∧ k < infos.length) := fun hc => h hc.1.symm
    rw [if_neg hne]
    cases hx : infos[k']? <;> simp [h]

theorem wrapAt_setModId (infos : List StmtInfo) (k k' : Nat) (v : Int) :
    wrapAt (setModId infos k v) k' = wrapAt infos k' := by
  unfold wrapAt setModId
  rw [List.getElem?_modify]
  by_cases h : k = k' <;> cases hx : infos[k']? <;> simp [h]

theorem namesAt_setModId (infos : List StmtInfo) (k k' : Nat) (v : Int) :
    namesAt (setModId infos k v) k' = namesAt infos k' := by
  unfold namesAt setModId
  rw [List.getElem?_modify]
  by_cases h : k = k' <;> cases hx : infos[k']? <;> simp [h]

theorem namesAt_setWrap (infos : List StmtInfo) (k k' : Nat)
    (w : String) :
    namesAt (setWrap infos k w) k' = namesAt infos k' := by
  unfold namesAt setWrap
  rw [List.getElem?_modify]
  by_cases h : k = k' <;> cases hx : infos[k']? <;> simp [h]

theorem modIdAt_foldl_setModId (stmts : List Nat) (infos : List StmtInfo)
    (v : Int) (k : Nat) :
    modIdAt (stmts.foldl (fun inf j => setModId inf j v) infos) k =
      if k ∈ stmts ∧ k < infos.length then v else modIdAt infos k := by
  induction stmts generalizing infos with
  | nil => simp
  | cons j rest ih =>
    rw [List.foldl_cons, ih, length_setModId, modIdAt_setModId]
    by_cases hr : k ∈ rest ∧ k < infos.length
    · rw [if_pos hr, if_pos ⟨List.mem_cons_of_mem j hr.1, hr.2⟩]
    · rw [if_neg hr]
      by_cases hj : k = j ∧ j < infos.length
      · rcases hj with ⟨rfl, hjl⟩
        rw [if_pos ⟨rfl, hjl⟩, if_pos ⟨List.mem_cons_self _ _, hjl⟩]
      · have hne : ¬(k ∈ j :: rest ∧ k < infos.length) := by
          rintro ⟨hmem, hkl⟩
          rcases List.mem_cons.mp hmem with rfl | hmem'
          · exact hj ⟨rfl, hkl⟩
          · exact hr ⟨hmem', hkl⟩
        rw [if_neg hj, if_neg hne]

theorem wrapAt_foldl_setModId (stmts : List Nat) (infos : List StmtInfo)
    (v : Int) (k : Nat) :
    wrapAt (stmts.foldl (fun inf j => setModId inf j v) infos) k =
      wrapAt infos k := by
  induction stmts generalizing infos with
  | nil => rfl
  | cons j rest ih => rw [List.foldl_cons, ih, wrapAt_setModId]

theorem namesAt_foldl_setModId (stmts : List Nat) (infos : List StmtInfo)
    (v : Int) (k : Nat) :
    namesAt (stmts.foldl (fun inf j => setModId inf j v) infos) k =
      namesAt infos k := by
  induction stmts generalizing infos with
  | nil => rfl
  | cons j rest ih => rw [List.foldl_cons, ih, namesAt_setModId]

theorem length_foldl_setModId (stmts : List Nat) (infos : List StmtInfo)
    (v : Int) :
    (stmts.foldl (fun inf j => setModId inf j v) infos).length =
      infos.length := by
  induction stmts generalizing infos with
  | nil => rfl
  | cons j rest ih => rw [List.foldl_cons, ih, length_setModId]

theorem pushModule_infos_length (st : TraceState) (wk : String)
    (stmts : List Nat) (pr : Nat) :
    (pushModule st wk stmts pr).infos.length = st.infos.length :=
  length_foldl_setModId ..

theorem modIdAt_pushModule (st : TraceState) (wk : String)
    (stmts : List Nat) (pr : Nat) (k : Nat) :
    modIdAt (pushModule st wk stmts pr).infos k =
      if k ∈ stmts ∧ k < st.infos.length then st.nextId
      else modIdAt st.infos k :=
  modIdAt_foldl_setModId ..

theorem wrapAt_pushModule (st : TraceState) (wk : String)
    (stmts : List Nat) (pr : Nat) (k : Nat) :
    wrapAt (pushModule st wk stmts pr).infos k = wrapAt st.infos k :=
  wrapAt_foldl_setModId ..

theorem namesAt_pushModule (st : TraceState) (wk : String)
    (stmts : List Nat) (pr : Nat) (k : Nat) :
    namesAt (pushModule st wk stmts pr).infos k = namesAt st.infos k :=
  namesAt_foldl_setModId ..

theorem pushModule_modules (st : TraceState) (wk : String)
    (stmts : List Nat) (pr : Nat) :
    (pushModule st wk stmts pr).modules =
      st.modules ++
        [{ id := st.nextId, wrapKind := wk, statements := stmts,
           primary := pr }] :=
  rfl

theorem pushModule_nextId (st : TraceState) (wk : String)
    (stmts : List Nat) (pr : Nat) :
    (pushModule st wk stmts pr).nextId = st.nextId + 1 :=
  rfl

/-! ## C9: bundler fingerprint decision -/

theorem count_ite_single (c : Prop) [Decidable c] (a b : String) :
    (if c then [a] else []).count b = if c ∧ a = b then 1 else 0 := by
  by_cases hc : c
  · by_cases hab : a = b
    · simp [hc, hab]
    · simp [hc, hab, List.count_cons]
  · simp [hc]

theorem ite_and_eq_zero (c : Prop) [Decidable c] {a b : String}
    (h : ¬a = b) : (if c ∧ a = b then (1 : Nat) else 0) = 0 :=
  if_neg (fun hc => h hc.2)

theorem ite_and_self (c : Prop) [Decidable c] (a : String) :
    (if c ∧ a = a then (1 : Nat) else 0) = if c then 1 else 0 := by
  by_cases hc : c <;> simp [hc]

/-- C9: the bundler decision is a function of the signal count (≥2 →
esbuild/high, =1 → esbuild/medium, 0 → unknown/low); exactly one signal
is emitted per helper kind present, one when at least 3 of the first five
statements contain an `Object.*` preamble pattern, and one when the full
source contains both `createRequire` and `import.meta.url`. -/
theorem c9_bundler_decision (body : List TopStmt) (code : Code)
    (helpers : HelperMap) :
    ((detectBundleType body code helpers).bundler,
        (detectBundleType body code helpers).confidence) =
      (if 2 ≤ (bundleSignals body code helpers).length then
        ("esbuild", "high")
       else if (bundleSignals body code helpers).length = 1 then
        ("esbuild", "medium")
       else ("unknown", "low")) ∧
    (detectBundleType body code helpers).signals =
      bundleSignals body code helpers ∧
    ((bundleSignals body code helpers).count "__commonJS helper detected" =
      if "__commonJS" ∈ helpers.map (fun p => p.2) then 1 else 0) ∧
    ((bundleSignals body code helpers).count "__esm helper detected" =
      if "__esm" ∈ helpers.map (fun p => p.2) then 1 else 0) ∧
    ((bundleSignals body code helpers).count "__toESM helper detected" =
      if "__toESM" ∈ helpers.map (fun p => p.2) then 1 else 0) ∧
    ((bundleSignals body code helpers).count "__copyProps helper detected" =
      if "__copyProps" ∈ helpers.map (fun p => p.2) then 1 else 0) ∧
    ((bundleSignals body code helpers).count
        "Object.* preamble (3+ in first 5 statements)" =
      if 3 ≤ (body.take 5).countP
          (fun ts =>
            preamblePatterns.any
              (fun pat =>
                listIncludes (sliceCode code ts.start ts.stop) pat)) then
        1
      else 0) ∧
    ((bundleSignals body code helpers).count
        "createRequire(import.meta.url) banner" =
      if listIncludes code "createRequire".toList ∧
          listIncludes code "import.meta.url".toList then 1 else 0) := by
  refine ⟨?_, ?_, ?_, ?_, ?_, ?_, ?_, ?_⟩
  · unfold detectBundleType
    by_cases h1 : 2 ≤ (bundleSignals body code helpers).length
    · simp [h1, ge_iff_le]
    · by_cases h2 : (bundleSignals body code helpers).length = 1
      · simp [h1, h2, ge_iff_le]
      · simp [h1, h2, ge_iff_le]
  · unfold detectBundleType
    by_cases h1 : 2 ≤ (bundleSignals body code helpers).length
    · simp [h1, ge_iff_le]
    · by_cases h2 : (bundleSignals body code helpers).length = 1
      · simp [h1, h2, ge_iff_le]
      · simp [h1, h2, ge_iff_le]
  all_goals
    simp only [bundleSignals, preambleCount, List.count_append,
      count_ite_single]
  all_goals
    simp only [and_true]
    rw [ite_and_eq_zero _ (by decide), ite_and_eq_zero _ (by decide),
      ite_and_eq_zero _ (by decide), ite_and_eq_zero _ (by decide),
      ite_and_eq_zero _ (by decide)]
    simp only [add_zero, zero_add, ge_iff_le, Bool.and_eq_true]
  · by_cases h : "__commonJS" ∈ helpers.map (fun p => p.2)
    · simp [List.contains, List.elem_iff, h]
    · simp [List.contains, List.elem_iff, h]
  · by_cases h : "__esm" ∈ helpers.map (fun p => p.2)
    · simp [List.contains, List.elem_iff, h]
    · simp [List.contains, List.elem_iff, h]
  · by_cases h : "__toESM" ∈ helpers.map (fun p => p.2)
    · simp [List.contains, List.elem_iff, h]
    · simp [List.contains, List.elem_iff, h]
  · by_cases h : "__copyProps" ∈ helpers.map (fun p => p.2)
    · simp [List.contains, List.elem_iff, h]
    · simp [List.contains, List.elem_iff, h]

/-! ## C7: byte accounting, and C8: behaviour on mismatch -/

theorem length_sliceCode (code : Code) (s e : Nat) (he : e ≤ code.length) :
    (sliceCode code s e).length = e - s := by
  simp [sliceCode]
  omega

theorem accountLoop_totals (code : Code) :
    ∀ (body : List TopStmt) (acc : AccountAcc),
      (∀ ts ∈ body, ts.start ≤ ts.stop ∧ ts.stop ≤ code.length) →
      List.Chain' (fun a b => a.stop ≤ b.start) body →
      (∀ ts, body.head? = some ts → acc.lastEnd ≤ ts.start) →
      acc.stmtBytes + acc.gapBytes = acc.lastEnd →
      acc.lastEnd ≤ code.length →
      (body.foldl (accountStep code) acc).stmtBytes +
          (body.foldl (accountStep code) acc).gapBytes =
        (body.foldl (accountStep code) acc).lastEnd ∧
      (body.foldl (accountStep code) acc).lastEnd ≤ code.length := by
  intro body
  induction body with
  | nil =>
    intro acc _ _ _ h4 h5
    exact ⟨h4, h5⟩
  | cons ts rest ih =>
    intro acc hb hchain hhead h4 h5
    have hts := hb ts (List.mem_cons_self _ _)
    have hle : acc.lastEnd ≤ ts.start := hhead ts rfl
    rw [List.foldl_cons]
    apply ih
    · intro t ht
      exact hb t (List.mem_cons_of_mem _ ht)
    · exact hchain.tail
    · intro t ht
      have : ts.stop ≤ t.start := by
        cases rest with
        | nil => cases ht
        | cons t' rest' =>
          cases ht
          exact (List.chain'_cons.mp hchain).1
      simpa [accountStep] using this
    · show (accountStep code acc ts).stmtBytes +
          (accountStep code acc ts).gapBytes =
        (accountStep code acc ts).lastEnd
      unfold accountStep
      by_cases hgap : ts.start > acc.lastEnd
      · rw [if_pos hgap]
        simp only
        rw [length_sliceCode code ts.start ts.stop hts.2,
          length_sliceCode code acc.lastEnd ts.start
            (le_trans hts.1 hts.2)]
        omega
      · rw [if_neg hgap]
        simp only
        rw [length_sliceCode code ts.start ts.stop hts.2]
        omega
    · show (accountStep code acc ts).lastEnd ≤ code.length
      simpa [accountStep] using hts.2

/-- C7: under the parser invariant (disjoint, ordered, in-bounds
statement ranges) the classify stage's running totals satisfy
statement bytes + gap bytes = body length, and the surfaced
byte_accounting_match flag is true. -/
theorem c7_byte_accounting (code : Code) (body : List TopStmt)
    (h : ParserInvariant code body) :
    (classifyRun code body).total_bytes_statements +
        (classifyRun code body).total_bytes_gaps = code.length ∧
    (classifyRun code body).accountingMatch = true := by
  obtain ⟨h1, h2, h3⟩ := h
  have main := accountLoop_totals code body ⟨0, 0, 0⟩
    (fun ts hts => ⟨h1 ts hts, h2 ts hts⟩) h3
    (fun ts _ => Nat.zero_le _) rfl (Nat.zero_le _)
  have hdrop : (code.drop (accountLoop code body).lastEnd).length =
      code.length - (accountLoop code body).lastEnd := by
    simp
  have key : (classifyRun code body).total_bytes_statements +
      (classifyRun code body).total_bytes_gaps = code.length := by
    show (accountLoop code body).stmtBytes +
        (if (accountLoop code body).lastEnd < code.length then
          (accountLoop code body).gapBytes +
            (code.drop (accountLoop code body).lastEnd).length
         else (accountLoop code body).gapBytes) = code.length
    rw [hdrop]
    have m1 := main.1
    have m2 := main.2
    unfold accountLoop at m1 m2 ⊢
    by_cases hlt : (List.foldl (accountStep code) ⟨0, 0, 0⟩ body).lastEnd <
        code.length
    · rw [if_pos hlt]
      omega
    · rw [if_neg hlt]
      omega
  refine ⟨key, ?_⟩
  show decide ((accountLoop code body).stmtBytes +
      (if (accountLoop code body).lastEnd < code.length then
        (accountLoop code body).gapBytes +
          (code.drop (accountLoop code body).lastEnd).length
       else (accountLoop code body).gapBytes) = code.length) = true
  exact decide_eq_true key

/-- C7 witness: the parser invariant holds for the two-statement bundle
`var x=1;var x=2;`, whose accounting therefore matches. -/
theorem c7_witness :
    ParserInvariant c3Code c3Body ∧
    (classifyRun c3Code c3Body).total_bytes_statements +
        (classifyRun c3Code c3Body).total_bytes_gaps = c3Code.length ∧
    (classifyRun c3Code c3Body).accountingMatch = true := by
  have hinv : ParserInvariant c3Code c3Body := by
    refine ⟨by decide, by decide, ?_⟩
    unfold c3Body
    rw [List.chain'_cons]
    exact ⟨by decide, List.chain'_singleton _⟩
  exact ⟨hinv, (c7_byte_accounting c3Code c3Body hinv).1,
    (c7_byte_accounting c3Code c3Body hinv).2⟩

/-- C8 counterexample: on a body whose ranges overlap, the accounting
totals do not reach the body length, yet the run completes: both output
files are written and the mismatch is only logged. -/
theorem c8_counterexample :
    (classifyRun c8Code c8Body).accountingMatch = false ∧
    (classifyRun c8Code c8Body).filesWritten = ["01_classified", "01_stats"] ∧
    "Match:             ❌ MISMATCH" ∈ (classifyRun c8Code c8Body).logLines := by
  refine ⟨by decide, rfl, by decide⟩

/-- C8 amended: when the byte-accounting totals do not equal the body
length, the classify stage logs a mismatch diagnostic and still completes
the run, writing the annotated output and the stats JSON (which records
byte_accounting_match = false); it does not abort. -/
theorem c8_amended_no_abort (code : Code) (body : List TopStmt) :
    (classifyRun code body).filesWritten = ["01_classified", "01_stats"] ∧
    (classifyRun code body).stats_byte_accounting_match =
      (classifyRun code body).accountingMatch ∧
    ((classifyRun code body).accountingMatch = false →
      "Match:             ❌ MISMATCH" ∈ (classifyRun code body).logLines) := by
  refine ⟨rfl, rfl, fun h => ?_⟩
  have : (classifyRun code body).logLines =
      ["=== Byte Accounting ==="] ++
      [if (classifyRun code body).accountingMatch then
        "Match:             ✅ 100%"
       else "Match:             ❌ MISMATCH"] ++
      (if (classifyRun code body).accountingMatch then []
       else ["DELTA: bytes unaccounted"]) := rfl
  rw [this, h]
  simp

/-- C8 witness: the amended theorem applied at the overlapping-range
body. -/
theorem c8_witness :
    (classifyRun c8Code c8Body).filesWritten = ["01_classified", "01_stats"] ∧
    "Match:             ❌ MISMATCH" ∈ (classifyRun c8Code c8Body).logLines :=
  ⟨(c8_amended_no_abort c8Code c8Body).1,
    (c8_amended_no_abort c8Code c8Body).2.2 (by decide)⟩

/-! ## C3: the definition map records the last binding -/

theorem enumFrom_append_list {α : Type} (l₁ l₂ : List α) :
    ∀ k, List.enumFrom k (l₁ ++ l₂) =
      List.enumFrom k l₁ ++ List.enumFrom (k + l₁.length) l₂ := by
  induction l₁ with
  | nil => intro k; simp
  | cons a rest ih =>
    intro k
    simp only [List.cons_append, List.enumFrom]
    rw [show rest.append l₂ = rest ++ l₂ from rfl, ih (k + 1),
      List.length_cons]
    congr 3
    omega

theorem mapGet_foldl_mapSet (names : List String) (db : List (String × Nat))
    (i : Nat) (n : String) :
    mapGet (names.foldl (fun db n => mapSet db n i) db) n =
      if n ∈ names then some i else mapGet db n := by
  induction names generalizing db with
  | nil => simp
  | cons a rest ih =>
    rw [List.foldl_cons, ih, mapGet_mapSet]
    by_cases hr : n ∈ rest
    · rw [if_pos hr, if_pos (List.mem_cons_of_mem _ hr)]
    · rw [if_neg hr]
      by_cases ha : n = a
      · rw [if_pos ha, if_pos (ha ▸ List.mem_cons_self _ _)]
      · rw [if_neg ha, if_neg (by simp [ha, hr])]

theorem buildDefinedBy_append (body' : List TopStmt) (ts : TopStmt) :
    buildDefinedBy (body' ++ [ts]) =
      (stmtDefNames ts.node).foldl
        (fun db n => mapSet db n body'.length) (buildDefinedBy body') := by
  unfold buildDefinedBy
  rw [List.enum, enumFrom_append_list, List.foldl_append]
  simp [List.enumFrom]

theorem defsAt_append_left (body' : List TopStmt) (l : List TopStmt)
    (k : Nat) (hk : k < body'.length) :
    defsAt (body' ++ l) k = defsAt body' k := by
  unfold defsAt
  rw [List.getElem?_append_left hk]

theorem defsAt_append_self (body' : List TopStmt) (ts : TopStmt) :
    defsAt (body' ++ [ts]) body'.length = stmtDefNames ts.node := by
  unfold defsAt
  rw [List.getElem?_append_right (le_refl _)]
  simp

theorem defsAt_mem_lt (body : List TopStmt) (k : Nat) (n : String)
    (h : n ∈ defsAt body k) : k < body.length := by
  by_contra hge
  unfold defsAt at h
  rw [List.getElem?_eq_none (by omega)] at h
  cases h

theorem buildDefinedBy_spec (body : List TopStmt) (n : String) :
    (∀ j, mapGet (buildDefinedBy body) n = some j →
      j < body.length ∧ n ∈ defsAt body j ∧
        ∀ k, k < body.length → n ∈ defsAt body k → k ≤ j) ∧
    (∀ i, i < body.length → n ∈ defsAt body i →
      (mapGet (buildDefinedBy body) n).isSome) := by
  induction body using List.reverseRecOn with
  | nil =>
    constructor
    · intro j hj
      simp [buildDefinedBy, mapGet] at hj
    · intro i hi
      simp at hi
  | append_singleton body' ts ih =>
    rw [buildDefinedBy_append, List.length_append, List.length_singleton]
    constructor
    · intro j hj
      rw [mapGet_foldl_mapSet] at hj
      by_cases hmem : n ∈ stmtDefNames ts.node
      · rw [if_pos hmem] at hj
        cases hj
        refine ⟨by omega, by rw [defsAt_append_self]; exact hmem, ?_⟩
        intro k hk _
        omega
      · rw [if_neg hmem] at hj
        obtain ⟨hjl, hjb, hmax⟩ := ih.1 j hj
        refine ⟨by omega, ?_, ?_⟩
        · rw [defsAt_append_left _ _ _ hjl]
          exact hjb
        · intro k hk hkb
          by_cases hkl : k < body'.length
          · exact hmax k hkl (by rwa [defsAt_append_left _ _ _ hkl] at hkb)
          · exfalso
            have : k = body'.length := by omega
            subst this
            rw [defsAt_append_self] at hkb
            exact hmem hkb
    · intro i hi hib
      rw [mapGet_foldl_mapSet]
      by_cases hmem : n ∈ stmtDefNames ts.node
      · rw [if_pos hmem]
        rfl
      · rw [if_neg hmem]
        by_cases hil : i < body'.length
        · exact ih.2 i hil (by rwa [defsAt_append_left _ _ _ hil] at hib)
        · exfalso
          have : i = body'.length := by omega
          subst this
          rw [defsAt_append_self] at hib
          exact hmem hib

/-- C3 counterexample: in `var x=1;var x=2;` the definition map sends `x`
to statement 1, the later binding, not to the earliest binding 0. -/
theorem c3_counterexample :
    "x" ∈ defsAt c3Body 0 ∧ "x" ∈ defsAt c3Body 1 ∧
    mapGet (buildDefinedBy c3Body) "x" = some 1 ∧
    mapGet (buildDefinedBy c3Body) "x" ≠ some 0 := by
  refine ⟨by decide, by decide, by decide, by decide⟩

/-- C3 amended: `definedBy.set` overwrites, so for every identifier bound
by at least one top-level statement the lookup returns the index of the
LAST binding statement: a binder exists at the returned index and every
binder's index is at most the returned one. -/
theorem c3_amended_last_binding (body : List TopStmt) (n : String)
    (i : Nat) (hi : i < body.length) (hbind : n ∈ defsAt body i) :
    ∃ j, mapGet (buildDefinedBy body) n = some j ∧
      n ∈ defsAt body j ∧ i ≤ j ∧ j < body.length ∧
      ∀ k, k < body.length → n ∈ defsAt body k → k ≤ j := by
  have hsome := (buildDefinedBy_spec body n).2 i hi hbind
  obtain ⟨j, hj⟩ := Option.isSome_iff_exists.mp hsome
  obtain ⟨hjl, hjb, hmax⟩ := (buildDefinedBy_spec body n).1 j hj
  exact ⟨j, hj, hjb, hmax i hi hbind, hjl, hmax⟩

/-- C3 witness: the amended theorem applied to `var x=1;var x=2;` at the
binder in statement 0. -/
theorem c3_witness :
    (0 : Nat) < c3Body.length ∧ "x" ∈ defsAt c3Body 0 ∧
    ∃ j, mapGet (buildDefinedBy c3Body) "x" = some j ∧
      "x" ∈ defsAt c3Body j ∧ 0 ≤ j ∧ j < c3Body.length ∧
      ∀ k, k < c3Body.length → "x" ∈ defsAt c3Body k → k ≤ j :=
  ⟨by decide, by decide,
    c3_amended_last_binding c3Body "x" 0 (by decide) (by decide)⟩

/-! ## C10: the two helper detectors -/

set_option maxRecDepth 40000

/-- C10 counterexample: on the minified `__esm` helper (inner body
`(t&&(r=t(t=0)),r)`, no whitespace around `=0`) the two detectors return
different maps. -/
theorem c10_counterexample :
    detectRuntimeHelpersTrace c10MinBody c10MinCode ≠
      detectRuntimeHelpersClassify c10MinBody c10MinCode := by
  decide

/-- C10 amended: the two detectors agree on the non-minified bundle using
the four literal helper names (the classify shortcut and the trace shape
checks coincide there), but on a minified bundle whose `__esm` inner body
contains `=0` with no surrounding whitespace they disagree: classify
(which strips whitespace before the substring test) maps the name to
`__esm` while trace (which searches the raw slice for `"= 0"`) detects
nothing. -/
theorem c10_amended_detector_difference :
    detectRuntimeHelpersTrace quartetBody quartetCode =
      detectRuntimeHelpersClassify quartetBody quartetCode ∧
    detectRuntimeHelpersClassify c10MinBody c10MinCode =
      [("e", "__esm")] ∧
    detectRuntimeHelpersTrace c10MinBody c10MinCode = [] := by
  refine ⟨by decide, by decide, by decide⟩

/-! ## C2: the ESM back-trace scenario -/

/-- C2 counterexample: on the spec's scenario-2 input, no ESM module
contains the four statements 1–4; statement 1 ends with WrapKind RUNTIME,
not ESM. -/
theorem c2_counterexample :
    (¬ ∃ m ∈ (runTrace c2Body c2Code).state.modules,
        m.wrapKind = "ESM" ∧ m.statements = [1, 2, 3, 4]) ∧
    wrapAt (runTrace c2Body c2Code).state.infos 1 = "RUNTIME" := by
  constructor
  · decide
  · decide

/-- C2 amended: on the scenario-2 input the three statements preceding
the factory precede the FIRST CJS/ESM factory, so the preamble extension
reclassifies them from None to RUNTIME before pass 1; module
identification therefore produces a RUNTIME module with the helper plus
those three statements, and a single-statement ESM module whose primary
is the factory; the back-trace absorbs nothing. -/
theorem c2_amended_preamble_wins :
    (runTrace c2Body c2Code).state.modules =
      [{ id := 0, wrapKind := "RUNTIME", statements := [0, 1, 2, 3],
         primary := 0 },
       { id := 1, wrapKind := "ESM", statements := [4], primary := 4 }] ∧
    (runTrace c2Body c2Code).state.infos.map (fun si => si.wrapKind) =
      ["RUNTIME", "RUNTIME", "RUNTIME", "RUNTIME", "ESM"] := by
  refine ⟨by decide, by decide⟩

/-! ## Pass frame lemmas (used by C1 and the partition invariant) -/

theorem foldl_inv {σ : Type} {P : σ → Prop} (f : σ → Nat → σ)
    (l : List Nat) (s : σ) (h0 : P s)
    (hstep : ∀ s i, i ∈ l → P s → P (f s i)) : P (l.foldl f s) := by
  induction l generalizing s with
  | nil => exact h0
  | cons i rest ih =>
    rw [List.foldl_cons]
    exact ih (f s i) (hstep s i (List.mem_cons_self _ _) h0)
      (fun s' i' hi' => hstep s' i' (List.mem_cons_of_mem _ hi'))

theorem wrapAt_lt_of_ne_default (infos : List StmtInfo) (j : Nat)
    (h : wrapAt infos j ≠ "") : j < infos.length := by
  by_contra hge
  unfold wrapAt at h
  rw [List.getElem?_eq_none (by omega)] at h
  exact h rfl

theorem absorbFrom_spec (nid : Int) :
    ∀ (j : Nat) (infos : List StmtInfo),
      (absorbFrom nid infos j).1.length = infos.length ∧
      (absorbFrom nid infos j).2.Nodup ∧
      (∀ k, k ∈ (absorbFrom nid infos j).2 →
        k ≤ j ∧ modIdAt infos k = -1 ∧ wrapAt infos k = "None") ∧
      (∀ k, modIdAt (absorbFrom nid infos j).1 k =
        if k ∈ (absorbFrom nid infos j).2 then nid
        else modIdAt infos k) ∧
      (∀ k, wrapAt (absorbFrom nid infos j).1 k =
        if k ∈ (absorbFrom nid infos j).2 then "ESM"
        else wrapAt infos k) ∧
      (∀ k, namesAt (absorbFrom nid infos j).1 k = namesAt infos k) := by
  intro j
  induction j with
  | zero =>
    intro infos
    unfold absorbFrom
    by_cases hguard : modIdAt infos 0 ≠ -1 ∨ wrapAt infos 0 ≠ "None"
    · rw [if_pos hguard]
      simp
    · rw [if_neg hguard]
      push_neg at hguard
      have h0lt : 0 < infos.length :=
        wrapAt_lt_of_ne_default infos 0 (by rw [hguard.2]; decide)
      refine ⟨?_, by simp, ?_, ?_, ?_, ?_⟩
      · simp [length_setWrap, length_setModId]
      · intro k hk
        simp only [List.mem_singleton] at hk
        subst hk
        exact ⟨le_refl _, hguard.1, hguard.2⟩
      · intro k
        rw [modIdAt_setWrap, modIdAt_setModId]
        by_cases hk : k = 0
        · subst hk
          simp [h0lt]
        · simp [hk]
      · intro k
        rw [wrapAt_setWrap, length_setModId, wrapAt_setModId]
        by_cases hk : k = 0
        · subst hk
          simp [h0lt]
        · simp [hk]
      · intro k
        rw [namesAt_setWrap, namesAt_setModId]
    | succ j' ih =>
    intro infos
    unfold absorbFrom
    by_cases hguard : modIdAt infos (j' + 1) ≠ -1 ∨
        wrapAt infos (j' + 1) ≠ "None"
    · rw [if_pos hguard]
      simp
    · rw [if_neg hguard]
      push_neg at hguard
      have hjlt : j' + 1 < infos.length :=
        wrapAt_lt_of_ne_default infos (j' + 1) (by rw [hguard.2]; decide)
      set infos1 := setWrap (setModId infos (j' + 1) nid) (j' + 1) "ESM"
        with hinfos1
      have hlen1 : infos1.length = infos.length := by
        rw [hinfos1, length_setWrap, length_setModId]
      have hmod1 : ∀ k, modIdAt infos1 k =
          if k = j' + 1 then nid else modIdAt infos k := by
        intro k
        rw [hinfos1, modIdAt_setWrap, modIdAt_setModId]
        by_cases hk : k = j' + 1
        · subst hk
          simp [hjlt]
        · simp [hk]
      have hwrap1 : ∀ k, wrapAt infos1 k =
          if k = j' + 1 then "ESM" else wrapAt infos k := by
        intro k
        rw [hinfos1, wrapAt_setWrap, length_setModId, wrapAt_setModId]
        by_cases hk : k = j' + 1
        · subst hk
          simp [hjlt]
        · simp [hk]
      have hnames1 : ∀ k, namesAt infos1 k = namesAt infos k := by
        intro k
        rw [hinfos1, namesAt_setWrap, namesAt_setModId]
      obtain ⟨ih1, ih2, ih3, ih4, ih5, ih6⟩ := ih infos1
      have hnotmem : j' + 1 ∉ (absorbFrom nid infos1 j').2 := by
        intro hmem
        have := (ih3 _ hmem).1
        omega
      simp only
      refine ⟨by rw [ih1, hlen1], ?_, ?_, ?_, ?_, ?_⟩
      · exact List.Nodup.cons hnotmem ih2
      · intro k hk
        rcases List.mem_cons.mp hk with rfl | hmem
        · exact ⟨le_refl _, hguard.1, hguard.2⟩
        · obtain ⟨hk1, hk2, hk3⟩ := ih3 k hmem
          have hkne : k ≠ j' + 1 := by omega
          rw [hmod1 k, if_neg hkne] at hk2
          rw [hwrap1 k, if_neg hkne] at hk3
          exact ⟨by omega, hk2, hk3⟩
      · intro k
        rw [ih4 k]
        by_cases hmem : k ∈ (absorbFrom nid infos1 j').2
        · rw [if_pos hmem, if_pos (List.mem_cons_of_mem _ hmem)]
        · rw [if_neg hmem, hmod1 k]
          by_cases hk : k = j' + 1
          · subst hk
            rw [if_pos rfl, if_pos (List.mem_cons_self _ _)]
          · rw [if_neg hk, if_neg (by simp [hk, hmem])]
      · intro k
        rw [ih5 k]
        by_cases hmem : k ∈ (absorbFrom nid infos1 j').2
        · rw [if_pos hmem, if_pos (List.mem_cons_of_mem _ hmem)]
        · rw [if_neg hmem, hwrap1 k]
          by_cases hk : k = j' + 1
          · subst hk
            rw [if_pos rfl, if_pos (List.mem_cons_self _ _)]
          · rw [if_neg hk, if_neg (by simp [hk, hmem])]
      · intro k
        rw [ih6 k, hnames1 k]

theorem pass1_frame (st : TraceState) (k : Nat) :
    wrapAt (pass1 st).infos k = wrapAt st.infos k ∧
    (pass1 st).infos.length = st.infos.length ∧
    (wrapAt st.infos k ≠ "RUNTIME" →
      modIdAt (pass1 st).infos k = modIdAt st.infos k) := by
  unfold pass1
  by_cases h : (List.range st.infos.length).filter
      (fun i => wrapAt st.infos i = "RUNTIME") = []
  · rw [if_pos h]
    exact ⟨rfl, rfl, fun _ => rfl⟩
  · rw [if_neg h]
    refine ⟨wrapAt_pushModule .., pushModule_infos_length .., fun hne => ?_⟩
    rw [modIdAt_pushModule]
    rw [if_neg ?_]
    rintro ⟨hmem, _⟩
    exact hne (of_decide_eq_true (List.mem_filter.mp hmem).2)

theorem pass2_frame (st : TraceState) (k : Nat)
    (hk : wrapAt st.infos k ≠ "CJS") :
    (∀ k', wrapAt (pass2 st).infos k' = wrapAt st.infos k') ∧
    (pass2 st).infos.length = st.infos.length ∧
    modIdAt (pass2 st).infos k = modIdAt st.infos k := by
  unfold pass2
  refine foldl_inv
    (P := fun s => (∀ k', wrapAt s.infos k' = wrapAt st.infos k') ∧
      s.infos.length = st.infos.length ∧
      modIdAt s.infos k = modIdAt st.infos k)
    _ _ st ⟨fun _ => rfl, rfl, rfl⟩ ?_
  intro s i _ hP
  by_cases hc : wrapAt s.infos i = "CJS"
  · rw [if_pos hc]
    refine ⟨fun k' => (wrapAt_pushModule ..).trans (hP.1 k'),
      (pushModule_infos_length ..).trans hP.2.1, ?_⟩
    rw [modIdAt_pushModule]
    have hne : ¬(k ∈ [i] ∧ k < s.infos.length) := by
      rintro ⟨hmem, _⟩
      rw [List.mem_singleton] at hmem
      subst hmem
      exact hk ((hP.1 k).symm.trans hc)
    rw [if_neg hne]
    exact hP.2.2
  · rw [if_neg hc]
    exact hP

theorem pass3_frame (body : List TopStmt) (helpers : HelperMap)
    (st : TraceState) (k : Nat)
    (hk : wrapAt st.infos k = "IMPORT") :
    wrapAt (pass3 body helpers st).infos k = "IMPORT" ∧
    modIdAt (pass3 body helpers st).infos k = modIdAt st.infos k := by
  unfold pass3
  refine foldl_inv
    (P := fun s => wrapAt s.infos k = "IMPORT" ∧
      modIdAt s.infos k = modIdAt st.infos k)
    (pass3Step body helpers) _ st ⟨hk, rfl⟩ ?_
  intro s i _ hP
  unfold pass3Step
  by_cases hesm : wrapAt s.infos i = "ESM"
  · rw [if_pos hesm]
    have hik : i ≠ k := by
      intro hik
      rw [hik, hP.1] at hesm
      exact absurd hesm (by decide)
    by_cases hfac : isEsmFactory helpers (nodeAt body i) = true
    · rw [if_pos hfac]
      simp only
      by_cases hi0 : i = 0
      · rw [if_pos hi0]
        simp only
        constructor
        · rw [wrapAt_setModId]
          exact hP.1
        · rw [modIdAt_setModId]
          rw [if_neg (by rintro ⟨rfl, _⟩; exact hik rfl)]
          exact hP.2
      · rw [if_neg hi0]
        obtain ⟨ha1, ha2, ha3, ha4, ha5, ha6⟩ :=
          absorbFrom_spec s.nextId (i - 1) (setModId s.infos i s.nextId)
        have hknot : k ∉ (absorbFrom s.nextId
            (setModId s.infos i s.nextId) (i - 1)).2 := by
          intro hmem
          have hw := (ha3 k hmem).2.2
          rw [wrapAt_setModId, hP.1] at hw
          exact absurd hw (by decide)
        constructor
        · rw [ha5 k, if_neg hknot, wrapAt_setModId]
          exact hP.1
        · rw [ha4 k, if_neg hknot, modIdAt_setModId]
          rw [if_neg (by rintro ⟨rfl, _⟩; exact hik rfl)]
          exact hP.2
    · rw [if_neg hfac]
      constructor
      · rw [wrapAt_pushModule]
        exact hP.1
      · rw [modIdAt_pushModule]
        have hne : ¬(k ∈ [i] ∧ k < s.infos.length) := by
          rintro ⟨hmem, _⟩
          rw [List.mem_singleton] at hmem
          exact hik hmem.symm
        rw [if_neg hne]
        exact hP.2
  · rw [if_neg hesm]
    exact hP

theorem modIdAt_initInfos (body : List TopStmt) (helpers : HelperMap)
    (code : Code) (k : Nat) :
    modIdAt (initInfos body helpers code) k = -1 := by
  unfold modIdAt initInfos
  rw [List.getElem?_map]
  cases body.enum[k]? <;> rfl

theorem modIdAt_preambleExtend (infos : List StmtInfo) (k : Nat) :
    modIdAt (preambleExtend infos) k = modIdAt infos k := by
  unfold modIdAt preambleExtend
  rw [List.getElem?_mapIdx]
  cases hx : infos[k]? with
  | none => rfl
  | some si =>
    by_cases hc : k < firstFactoryIdx infos ∧ si.wrapKind = "None"
    · simp [hc]
    · simp [hc]

theorem length_preambleExtend (infos : List StmtInfo) :
    (preambleExtend infos).length = infos.length := by
  simp [preambleExtend]

/-! ## C1: `__toESM` / `__copyProps` factory calls -/

/-- C1 counterexample: for the `__toESM` adapter statement `var q=t(0);`
(with `t` a detected `__toESM` helper), the WrapKind derived before
module identification is IMPORT, not ESM, and pass 3 gives it no module:
after pass 3 the statement is still unassigned. -/
theorem c1_counterexample :
    classifyStmtWrapKind c1Adapter.node 1
        (detectRuntimeHelpersTrace c1Body c1Code) c1Code = "IMPORT" ∧
    "IMPORT" ≠ "ESM" ∧
    modIdAt (afterPass3 c1Body c1Code).infos 1 = -1 ∧
    (∀ m ∈ (afterPass3 c1Body c1Code).modules, 1 ∉ m.statements) := by
  refine ⟨by decide, by decide, by decide, by decide⟩

/-- C1 amended: a top-level single-declarator variable declaration whose
initializer calls a helper detected as `__toESM` or `__copyProps` (and
whose id is not itself a helper name) gets per-statement WrapKind IMPORT
already in `classifyStmtWrapKind` — not ESM, and not in pass 4 — and
passes 1–3 neither assign it to a module nor change its WrapKind, so
pass 3 creates no single-statement ESM module for it. -/
theorem c1_amended_adapter_is_import :
    (∀ (helpers : HelperMap) (code : Code) (idx : Nat) (d : Declarator),
      declIdIsHelper helpers d = false →
      (declInitCalleeHelper helpers d = some "__toESM" ∨
        declInitCalleeHelper helpers d = some "__copyProps") →
      classifyStmtWrapKind (.variableDeclaration [d]) idx helpers code =
        "IMPORT") ∧
    (∀ (body : List TopStmt) (code : Code) (k : Nat),
      wrapAt (initialState body (detectRuntimeHelpersTrace body code)
          code).infos k = "IMPORT" →
      modIdAt (afterPass3 body code).infos k = -1 ∧
      wrapAt (afterPass3 body code).infos k = "IMPORT") := by
  constructor
  · intro helpers code idx d hid hinit
    unfold classifyStmtWrapKind wrapKindOfDecls
    rw [if_neg (by rw [hid]; exact Bool.false_ne_true)]
    rcases hinit with h | h <;> rw [h] <;> rfl
  · intro body code k hk
    set helpers := detectRuntimeHelpersTrace body code
    set st0 := initialState body helpers code
    have h0 : modIdAt st0.infos k = -1 := by
      show modIdAt (preambleExtend (initInfos body helpers code)) k = -1
      rw [modIdAt_preambleExtend, modIdAt_initInfos]
    obtain ⟨f1w, f1l, f1m⟩ := pass1_frame st0 k
    have h1w : wrapAt (pass1 st0).infos k = "IMPORT" := by rw [f1w]; exact hk
    have h1m : modIdAt (pass1 st0).infos k = -1 := by
      rw [f1m (by rw [hk]; decide)]
      exact h0
    obtain ⟨f2w, f2l, f2m⟩ := pass2_frame (pass1 st0) k
      (by rw [h1w]; decide)
    have h2w : wrapAt (pass2 (pass1 st0)).infos k = "IMPORT" := by
      rw [f2w]; exact h1w
    have h2m : modIdAt (pass2 (pass1 st0)).infos k = -1 := by
      rw [f2m]; exact h1m
    obtain ⟨f3w, f3m⟩ := pass3_frame body helpers (pass2 (pass1 st0)) k h2w
    exact ⟨by rw [show (afterPass3 body code).infos =
        (pass3 body helpers (pass2 (pass1 st0))).infos from rfl, f3m]; exact h2m,
      by rw [show (afterPass3 body code).infos =
        (pass3 body helpers (pass2 (pass1 st0))).infos from rfl]; exact f3w⟩

/-- C1 witness: the amended theorem applied at the concrete `__toESM`
adapter bundle. -/
theorem c1_witness :
    classifyStmtWrapKind (Stmt.variableDeclaration
        [⟨some (.ident "q"), some (.mk 35 39 (.callExpression (some "t")))⟩])
        1 [("t", "__toESM")] c1Code = "IMPORT" ∧
    modIdAt (afterPass3 c1Body c1Code).infos 1 = -1 := by
  constructor
  · exact c1_amended_adapter_is_import.1 [("t", "__toESM")] c1Code 1 _
      (by decide) (Or.inl (by decide))
  · exact (c1_amended_adapter_is_import.2 c1Body c1Code 1 (by decide)).1

/-! ## C4: pass-5 Jaccard clustering -/

theorem jaccard_eq_inter_div_union (a b : Finset Int) :
    jaccard a b =
      if a = ∅ ∧ b = ∅ then 1
      else ((a ∩ b).card : Rat) / ((a ∪ b).card : Rat) := by
  unfold jaccard
  by_cases h : a.card = 0 ∧ b.card = 0
  · rw [if_pos h, if_pos ⟨Finset.card_eq_zero.mp h.1,
      Finset.card_eq_zero.mp h.2⟩]
  · have h' : ¬(a = ∅ ∧ b = ∅) := by
      intro hc
      exact h ⟨by rw [hc.1]; rfl, by rw [hc.2]; rfl⟩
    rw [if_neg h, if_neg h']
    have hcard : (a ∪ b).card + (a ∩ b).card = a.card + b.card :=
      Finset.card_union_add_card_inter a b
    have hq : ((a ∪ b).card : Rat) + ((a ∩ b).card : Rat) =
        (a.card : Rat) + (b.card : Rat) := by
      exact_mod_cast hcard
    have : ((a.card : Rat) + (b.card : Rat) - ((a ∩ b).card : Rat)) =
        ((a ∪ b).card : Rat) := by
      linarith
    rw [this]

theorem processElements_eq_spec (st : TraceState) (cluster : List Element)
    (rest : List Element) :
    processElements st cluster rest =
      (specGreedyClustersAux cluster rest).foldl flushCluster st := by
  induction rest generalizing st cluster with
  | nil => rfl
  | cons e rest ih =>
    unfold processElements specGreedyClustersAux
    by_cases h : jaccard (clusterFp cluster) e.fingerprint ≥ 1 / 2
    · rw [if_pos h, if_pos h, ih]
    · rw [if_neg h, if_neg h, ih, List.foldl_cons]

theorem processRun_eq_spec (graph : List GNode) (st : TraceState)
    (run : List Nat) :
    processRun graph st run =
      (specGreedyClusters (buildElements graph st.infos run)).foldl
        flushCluster st := by
  unfold processRun
  cases hE : buildElements graph st.infos run with
  | nil => rfl
  | cons e rest =>
    unfold specGreedyClusters
    exact processElements_eq_spec st [e] rest

/-- C4: pass 5 processes each maximal contiguous unassigned run by greedy
left-to-right clustering exactly as the spec words it; the similarity is
Jaccard `|A∩B|/|A∪B|` with both-empty ⇒ 1; extension happens exactly at
similarity ≥ 0.5 (the threshold test in `specGreedyClustersAux`); each
flushed cluster becomes one fresh module whose statements are the
clustered element indices and whose WrapKind is IMPORT exactly when every
statement in it is IMPORT, and None otherwise. -/
theorem c4_pass5_greedy_clustering :
    (∀ a b : Finset Int, jaccard a b =
      if a = ∅ ∧ b = ∅ then 1
      else ((a ∩ b).card : Rat) / ((a ∪ b).card : Rat)) ∧
    (∀ (graph : List GNode) (st : TraceState),
      pass5 graph st = (runsOf st.infos).foldl (processRun graph) st) ∧
    (∀ (graph : List GNode) (st : TraceState) (run : List Nat),
      processRun graph st run =
        (specGreedyClusters (buildElements graph st.infos run)).foldl
          flushCluster st) ∧
    (∀ (st : TraceState) (cl : List Element),
      ∃ m, (flushCluster st cl).modules = st.modules ++ [m] ∧
        m.statements = cl.flatMap (fun el => el.indices) ∧
        m.id = st.nextId ∧
        (m.wrapKind = "IMPORT" ↔
          ∀ s ∈ m.statements, wrapAt st.infos s = "IMPORT") ∧
        (m.wrapKind = "IMPORT" ∨ m.wrapKind = "None")) := by
  refine ⟨jaccard_eq_inter_div_union, fun _ _ => rfl, processRun_eq_spec,
    ?_⟩
  intro st cl
  unfold flushCluster pushModule
  refine ⟨_, rfl, rfl, rfl, ?_, ?_⟩
  · by_cases h : (cl.flatMap (fun el => el.indices)).all
        (fun si => wrapAt st.infos si = "IMPORT")
    · rw [if_pos h]
      simp only [true_iff]
      intro s hs
      exact of_decide_eq_true (List.all_eq_true.mp h s hs)
    · rw [if_neg h]
      constructor
      · intro hc
        have : ("None" : String) = "IMPORT" := hc
        exact absurd this (by decide)
      · intro hall
        exact absurd
          (List.all_eq_true.mpr fun s hs => decide_eq_true (hall s hs)) h
  · by_cases h : (cl.flatMap (fun el => el.indices)).all
        (fun si => wrapAt st.infos si = "IMPORT")
    · rw [if_pos h]
      exact Or.inl rfl
    · rw [if_neg h]
      exact Or.inr rfl

/-! ## Generic fold and list lemmas for the partition proofs -/

theorem foldl_range_inv {σ : Type} {N : Nat} {P : Nat → σ → Prop}
    (f : σ → Nat → σ) (s : σ) (h0 : P 0 s)
    (hstep : ∀ t s', t < N → P t s' → P (t + 1) (f s' t)) :
    P N ((List.range N).foldl f s) := by
  induction N with
  | zero => exact h0
  | succ n ih =>
    rw [List.range_succ, List.foldl_append, List.foldl_cons,
      List.foldl_nil]
    exact hstep n _ (Nat.lt_succ_self n)
      (ih (fun t s' ht hP => hstep t s' (Nat.lt_succ_of_lt ht) hP))

theorem mem_foldl_union (f : Nat → Finset Int) (l : List Nat) (x : Int)
    (init : Finset Int) :
    x ∈ l.foldl (fun acc s => acc ∪ f s) init ↔
      x ∈ init ∨ ∃ s ∈ l, x ∈ f s := by
  induction l generalizing init with
  | nil => simp
  | cons a rest ih =>
    rw [List.foldl_cons, ih]
    simp only [Finset.mem_union, List.mem_cons]
    constructor
    · rintro ((h | h) | ⟨s, hs, hx⟩)
      · exact Or.inl h
      · exact Or.inr ⟨a, Or.inl rfl, h⟩
      · exact Or.inr ⟨s, Or.inr hs, hx⟩
    · rintro (h | ⟨s, rfl | hs, hx⟩)
      · exact Or.inl (Or.inl h)
      · exact Or.inl (Or.inr hx)
      · exact Or.inr ⟨s, hs, hx⟩

theorem countP_eq_one_of_unique {α : Type} (l : List α) (p : α → Bool)
    (f : α → Int) (hnd : (l.map f).Nodup) (a : α) (ha : a ∈ l)
    (hpa : p a = true) (huniq : ∀ b ∈ l, p b = true → f b = f a) :
    l.countP p = 1 := by
  induction l with
  | nil => cases ha
  | cons x xs ih =>
    rw [List.map_cons, List.nodup_cons] at hnd
    by_cases hpx : p x = true
    · have hfx : f x = f a := huniq x (List.mem_cons_self _ _) hpx
      rw [List.countP_cons, if_pos hpx]
      have hzero : xs.countP p = 0 := by
        rw [List.countP_eq_zero]
        intro b hb hpb
        have : f b = f a := huniq b (List.mem_cons_of_mem _ hb) hpb
        exact hnd.1 (this.trans hfx.symm ▸ List.mem_map_of_mem f hb)
      omega
    · have hax : a ≠ x := fun hc => hpx (hc ▸ hpa)
      have ha' : a ∈ xs := by
        rcases List.mem_cons.mp ha with rfl | h
        · exact absurd rfl hax
        · exact h
      rw [List.countP_cons, if_neg hpx, add_zero]
      exact ih hnd.2 ha'
        (fun b hb hpb => huniq b (List.mem_cons_of_mem _ hb) hpb)

theorem findIdx?_of_nodup_ids (l : List Module)
    (hnd : (l.map Module.id).Nodup) :
    ∀ (idx : Nat) (m : Module), l[idx]? = some m →
      l.findIdx? (fun m' => m'.id = m.id) = some idx := by
  induction l with
  | nil =>
    intro idx m hm
    rw [List.getElem?_nil] at hm
    cases hm
  | cons x xs ih =>
    intro idx m hm
    rw [List.map_cons, List.nodup_cons] at hnd
    cases idx with
    | zero =>
      rw [List.getElem?_cons_zero] at hm
      cases hm
      rw [List.findIdx?_cons, if_pos (by simp)]
    | succ n =>
      rw [List.getElem?_cons_succ] at hm
      have hmem : m ∈ xs := by
        have := List.getElem?_eq_some.mp hm
        exact this.choose_spec ▸ List.getElem_mem _
      have hne : ¬x.id = m.id := by
        intro hc
        exact hnd.1 (hc ▸ List.mem_map_of_mem Module.id hmem)
      rw [List.findIdx?_cons, if_neg (by simpa using hne),
        List.findIdx?_succ, ih hnd.2 n m hm]
      rfl

/-! ## The generic module-assignment step preserves the invariant -/

theorem inv_assign {N : Nat} {st st' : TraceState} (hInv : Inv N st)
    (stmts : List Nat) (m : Module)
    (hmods : st'.modules = st.modules ++ [m])
    (hnext : st'.nextId = st.nextId + 1)
    (hid : m.id = st.nextId)
    (hstmts : m.statements = stmts)
    (hlen : st'.infos.length = st.infos.length)
    (hne : stmts ≠ []) (hnd : stmts.Nodup)
    (hlt : ∀ s ∈ stmts, s < N)
    (hun : ∀ s ∈ stmts, modIdAt st.infos s = -1)
    (hmod : ∀ k, modIdAt st'.infos k =
      if k ∈ stmts then st.nextId else modIdAt st.infos k) :
    Inv N st' := by
  constructor
  · rw [hlen, hInv.len]
  · rw [hnext]
    have := hInv.nextNonneg
    omega
  · intro mm hmm
    rw [hmods] at hmm
    rcases List.mem_append.mp hmm with h | h
    · exact hInv.idNonneg mm h
    · rw [List.mem_singleton] at h
      subst h
      rw [hid]
      exact hInv.nextNonneg
  · intro mm hmm
    rw [hmods] at hmm
    rw [hnext]
    rcases List.mem_append.mp hmm with h | h
    · have := hInv.idLt mm h
      omega
    · rw [List.mem_singleton] at h
      subst h
      rw [hid]
      omega
  · rw [hmods, List.map_append, List.map_singleton]
    rw [List.nodup_append]
    refine ⟨hInv.idsNodup, List.nodup_singleton _, ?_⟩
    intro x hx
    rw [List.mem_singleton]
    intro hc
    obtain ⟨mm, hmm, hmmid⟩ := List.mem_map.mp hx
    have := hInv.idLt mm hmm
    rw [hmmid, hc, hid] at this
    omega
  · intro mm hmm
    rw [hmods] at hmm
    rcases List.mem_append.mp hmm with h | h
    · exact hInv.stmtsLt mm h
    · rw [List.mem_singleton] at h
      subst h
      rw [hstmts]
      exact hlt
  · intro mm hmm
    rw [hmods] at hmm
    rcases List.mem_append.mp hmm with h | h
    · exact hInv.stmtsNodup mm h
    · rw [List.mem_singleton] at h
      subst h
      rw [hstmts]
      exact hnd
  · intro mm hmm
    rw [hmods] at hmm
    rcases List.mem_append.mp hmm with h | h
    · exact hInv.stmtsNe mm h
    · rw [List.mem_singleton] at h
      subst h
      rw [hstmts]
      exact hne
  · intro mm hmm s hs
    rw [hmods] at hmm
    rw [hmod s]
    rcases List.mem_append.mp hmm with h | h
    · by_cases hmem : s ∈ stmts
      · rw [if_pos hmem]
        have h1 : modIdAt st.infos s = -1 := hun s hmem
        have h2 : s ∈ mm.statements ↔ modIdAt st.infos s = mm.id :=
          hInv.fiber mm h s hs
        have h3 : 0 ≤ mm.id := hInv.idNonneg mm h
        have h4 : mm.id < st.nextId := hInv.idLt mm h
        constructor
        · intro hsm
          exact absurd (h2.mp hsm) (by omega)
        · intro hc
          omega
      · rw [if_neg hmem]
        exact hInv.fiber mm h s hs
    · rw [List.mem_singleton] at h
      subst h
      rw [hstmts, hid]
      by_cases hmem : s ∈ stmts
      · rw [if_pos hmem]
        simp [hmem]
      · rw [if_neg hmem]
        have := hInv.modIdLtNext s hs
        constructor
        · intro hc
          exact absurd hc hmem
        · intro hc
          omega
  · intro s hs
    rw [hmod s, hnext]
    by_cases hmem : s ∈ stmts
    · rw [if_pos hmem]
      omega
    · rw [if_neg hmem]
      have := hInv.modIdLtNext s hs
      omega
  · intro s hs hne'
    rw [hmod s] at hne' ⊢
    by_cases hmem : s ∈ stmts
    · rw [if_pos hmem]
      refine ⟨m, ?_, ?_⟩
      · rw [hmods]
        exact List.mem_append_right _ (List.mem_singleton_self m)
      · exact hid
    · rw [if_neg hmem] at hne' ⊢
      obtain ⟨mm, hmm, hmmid⟩ := hInv.assignedExists s hs hne'
      exact ⟨mm, by rw [hmods]; exact List.mem_append_left _ hmm, hmmid⟩

/-! ## Invariant through the passes -/

theorem inv_congr {N : Nat} {st st' : TraceState} (hInv : Inv N st)
    (hm : st'.modules = st.modules) (hn : st'.nextId = st.nextId)
    (hl : st'.infos.length = st.infos.length)
    (hmod : ∀ k, modIdAt st'.infos k = modIdAt st.infos k) : Inv N st' := by
  constructor
  · rw [hl, hInv.len]
  · rw [hn]; exact hInv.nextNonneg
  · rw [hm]; exact hInv.idNonneg
  · rw [hm, hn]; exact hInv.idLt
  · rw [hm]; exact hInv.idsNodup
  · rw [hm]; exact hInv.stmtsLt
  · rw [hm]; exact hInv.stmtsNodup
  · rw [hm]; exact hInv.stmtsNe
  · rw [hm]
    intro m hmm s hs
    rw [hmod s]
    exact hInv.fiber m hmm s hs
  · intro s hs
    rw [hmod s, hn]
    exact hInv.modIdLtNext s hs
  · rw [hm]
    intro s hs hne
    rw [hmod s] at hne ⊢
    exact hInv.assignedExists s hs hne

theorem inv_initial (body : List TopStmt) (helpers : HelperMap)
    (code : Code) :
    Inv body.length (initialState body helpers code) ∧
    (∀ k, modIdAt (initialState body helpers code).infos k = -1) := by
  have hmod : ∀ k,
      modIdAt (initialState body helpers code).infos k = -1 := by
    intro k
    show modIdAt (preambleExtend (initInfos body helpers code)) k = -1
    rw [modIdAt_preambleExtend, modIdAt_initInfos]
  refine ⟨?_, hmod⟩
  constructor
  · show (preambleExtend (initInfos body helpers code)).length = body.length
    rw [length_preambleExtend]
    unfold initInfos
    rw [List.length_map, List.enum_length]
  · exact le_refl 0
  · intro m hm; cases hm
  · intro m hm; cases hm
  · exact List.nodup_nil
  · intro m hm; cases hm
  · intro m hm; cases hm
  · intro m hm; cases hm
  · intro m hm; cases hm
  · intro s _
    rw [hmod s]
    show (-1 : Int) < (0 : Int)
    decide
  · intro s _ hne
    exact absurd (hmod s) hne

theorem pass1_inv {N : Nat} {st : TraceState} (hInv : Inv N st)
    (hall : ∀ k, k < N → modIdAt st.infos k = -1) :
    Inv N (pass1 st) := by
  unfold pass1
  by_cases hemp : (List.range st.infos.length).filter
      (fun i => wrapAt st.infos i = "RUNTIME") = []
  · rw [if_pos hemp]
    exact hInv
  · rw [if_neg hemp]
    have hlenN : st.infos.length = N := hInv.len
    have hsub : ∀ k ∈ (List.range st.infos.length).filter
        (fun i => wrapAt st.infos i = "RUNTIME"), k < N := by
      intro k hk
      have := List.mem_range.mp (List.mem_filter.mp hk).1
      omega
    exact inv_assign hInv _ _ rfl rfl rfl rfl
      (pushModule_infos_length ..) hemp
      ((List.nodup_range _).filter _)
      hsub
      (fun s hs => hall s (hsub s hs))
      (by
        intro k
        rw [modIdAt_pushModule]
        by_cases hmem : k ∈ (List.range st.infos.length).filter
            (fun i => wrapAt st.infos i = "RUNTIME")
        · rw [if_pos ⟨hmem, List.mem_range.mp (List.mem_filter.mp hmem).1⟩,
            if_pos hmem]
        · rw [if_neg (fun hc => hmem hc.1), if_neg hmem])

theorem pass2_inv {N : Nat} {st : TraceState} (hInv : Inv N st)
    (hCJS : ∀ k, k < N → wrapAt st.infos k = "CJS" →
      modIdAt st.infos k = -1) :
    Inv N (pass2 st) := by
  unfold pass2
  have hN : st.infos.length = N := hInv.len
  refine (foldl_range_inv (N := st.infos.length)
    (P := fun t s => Inv N s ∧
      (∀ k', wrapAt s.infos k' = wrapAt st.infos k') ∧
      (∀ k, t ≤ k → modIdAt s.infos k = modIdAt st.infos k))
    _ st ⟨hInv, fun _ => rfl, fun _ _ => rfl⟩ ?_).1
  intro t s ht hP
  obtain ⟨hI, hW, hM⟩ := hP
  by_cases hc : wrapAt s.infos t = "CJS"
  · rw [if_pos hc]
    have htN : t < N := by omega
    have hunass : modIdAt s.infos t = -1 := by
      rw [hM t (le_refl t)]
      exact hCJS t htN (by rw [← hW t]; exact hc)
    have hlen : s.infos.length = N := hI.len
    refine ⟨inv_assign hI [t] _ rfl rfl rfl rfl
      (pushModule_infos_length ..) (by simp) (List.nodup_singleton t)
      (by intro x hx; rw [List.mem_singleton] at hx; omega)
      (by intro x hx; rw [List.mem_singleton] at hx; subst hx;
          exact hunass)
      (by
        intro k
        rw [modIdAt_pushModule]
        by_cases hmem : k ∈ [t]
        · rw [List.mem_singleton] at hmem
          subst hmem
          rw [if_pos ⟨List.mem_singleton_self _, by omega⟩,
            if_pos (List.mem_singleton_self _)]
        · rw [if_neg (fun hc' => hmem hc'.1), if_neg hmem]), ?_, ?_⟩
    · intro k'
      rw [wrapAt_pushModule]
      exact hW k'
    · intro k hk
      rw [modIdAt_pushModule]
      have hne : ¬(k ∈ [t] ∧ k < s.infos.length) := by
        rintro ⟨hmem, _⟩
        rw [List.mem_singleton] at hmem
        omega
      rw [if_neg hne]
      exact hM k (by omega)
  · rw [if_neg hc]
    exact ⟨hI, hW, fun k hk => hM k (by omega)⟩

theorem pass3_inv {N : Nat} (body : List TopStmt) (helpers : HelperMap)
    {st : TraceState} (hInv : Inv N st)
    (hESM : ∀ k, k < N → wrapAt st.infos k = "ESM" →
      modIdAt st.infos k = -1) :
    Inv N (pass3 body helpers st) := by
  unfold pass3
  have hN : st.infos.length = N := hInv.len
  refine (foldl_range_inv (N := st.infos.length)
    (P := fun t s => Inv N s ∧
      (∀ k, t ≤ k → wrapAt s.infos k = wrapAt st.infos k) ∧
      (∀ k, t ≤ k → k < N → wrapAt st.infos k = "ESM" →
        modIdAt s.infos k = -1))
    (pass3Step body helpers) st
    ⟨hInv, fun _ _ => rfl, fun k _ hk hw => hESM k hk hw⟩ ?_).1
  intro t s ht hP
  obtain ⟨hI, hW, hM⟩ := hP
  have htN : t < N := by omega
  have hlen : s.infos.length = N := hI.len
  unfold pass3Step
  by_cases hesm : wrapAt s.infos t = "ESM"
  · rw [if_pos hesm]
    have hwst : wrapAt st.infos t = "ESM" := by
      rw [← hW t (le_refl t)]
      exact hesm
    have hunass : modIdAt s.infos t = -1 := hM t (le_refl t) htN hwst
    by_cases hfac : isEsmFactory helpers (nodeAt body t) = true
    · rw [if_pos hfac]
      simp only
      set infos1 := setModId s.infos t s.nextId with hinfos1
      have hlen1 : infos1.length = N := by
        rw [hinfos1, length_setModId, hlen]
      have hmod1 : ∀ k, modIdAt infos1 k =
          if k = t then s.nextId else modIdAt s.infos k := by
        intro k
        rw [hinfos1, modIdAt_setModId]
        by_cases hk : k = t
        · subst hk
          simp [hlen ▸ htN]
        · simp [hk]
      have hwrap1 : ∀ k, wrapAt infos1 k = wrapAt s.infos k := by
        intro k
        rw [hinfos1, wrapAt_setModId]
      -- the absorbed set and its properties, uniformly for t = 0 / t ≠ 0
      have habs : ∀ (pr : List StmtInfo × List Nat),
          (pr = if t = 0 then (infos1, ([] : List Nat))
            else absorbFrom s.nextId infos1 (t - 1)) →
          pr.1.length = N ∧ pr.2.Nodup ∧
          (∀ k ∈ pr.2, k < t ∧ modIdAt s.infos k = -1) ∧
          (∀ k, modIdAt pr.1 k =
            if k ∈ pr.2 then s.nextId else modIdAt infos1 k) ∧
          (∀ k, wrapAt pr.1 k =
            if k ∈ pr.2 then "ESM" else wrapAt s.infos k) := by
        intro pr hpr
        by_cases ht0 : t = 0
        · rw [if_pos ht0] at hpr
          subst hpr
          refine ⟨hlen1, List.nodup_nil, ?_, ?_, ?_⟩
          · intro k hk
            cases hk
          · intro k
            rw [if_neg (List.not_mem_nil k)]
          · intro k
            rw [if_neg (List.not_mem_nil k)]
            exact hwrap1 k
        · rw [if_neg ht0] at hpr
          subst hpr
          obtain ⟨ha1, ha2, ha3, ha4, ha5, _⟩ :=
            absorbFrom_spec s.nextId (t - 1) infos1
          refine ⟨by rw [ha1, hlen1], ha2, ?_, ha4, ?_⟩
          · intro k hk
            obtain ⟨hk1, hk2, hk3⟩ := ha3 k hk
            have hkt : k < t := by omega
            rw [hmod1 k, if_neg (by omega)] at hk2
            exact ⟨hkt, hk2⟩
          · intro k
            rw [ha5 k]
            by_cases hmem : k ∈ (absorbFrom s.nextId infos1 (t - 1)).2
            · rw [if_pos hmem, if_pos hmem]
            · rw [if_neg hmem, if_neg hmem]
              exact hwrap1 k
      obtain ⟨hb1, hb2, hb3, hb4, hb5⟩ := habs _ rfl
      set pr := if t = 0 then (infos1, ([] : List Nat))
        else absorbFrom s.nextId infos1 (t - 1) with hprdef
      have htnotin : t ∉ pr.2 := by
        intro hmem
        exact absurd (hb3 t hmem).1 (lt_irrefl t)
      have hcons_nodup : (t :: pr.2).Nodup := List.Nodup.cons htnotin hb2
      have hmemiff : ∀ k,
          k ∈ List.insertionSort (fun a b => a ≤ b) (t :: pr.2) ↔
            k ∈ t :: pr.2 :=
        fun k => (List.perm_insertionSort _ _).mem_iff
      have hstep : Inv N
          { infos := pr.1,
            modules := s.modules ++
              [{ id := s.nextId, wrapKind := "ESM",
                 statements :=
                   List.insertionSort (fun a b => a ≤ b) (t :: pr.2),
                 primary := t }],
            nextId := s.nextId + 1 } := by
        have hlenpr : pr.1.length = s.infos.length := by
          rw [hb1, hlen]
        apply inv_assign hI
          (List.insertionSort (fun a b => a ≤ b) (t :: pr.2)) _
          rfl rfl rfl rfl hlenpr
        · intro hcon
          have := congrArg List.length hcon
          rw [List.length_insertionSort] at this
          simp at this
        · exact (List.perm_insertionSort _ _).nodup_iff.mpr hcons_nodup
        · intro x hx
          rw [hmemiff x] at hx
          rcases List.mem_cons.mp hx with rfl | hx'
          · exact htN
          · exact lt_trans (hb3 x hx').1 htN
        · intro x hx
          rw [hmemiff x] at hx
          rcases List.mem_cons.mp hx with rfl | hx'
          · exact hunass
          · exact (hb3 x hx').2
        · intro k
          rw [hb4 k, hmod1 k]
          by_cases hmem : k ∈ pr.2
          · rw [if_pos hmem,
              if_pos ((hmemiff k).mpr (List.mem_cons_of_mem _ hmem))]
          · rw [if_neg hmem]
            by_cases hkt : k = t
            · subst hkt
              rw [if_pos rfl,
                if_pos ((hmemiff k).mpr (List.mem_cons_self _ _))]
            · rw [if_neg hkt, if_neg ?_]
              intro hc
              rw [hmemiff k] at hc
              rcases List.mem_cons.mp hc with h | h
              · exact hkt h
              · exact hmem h
      refine ⟨hstep, ?_, ?_⟩
      · intro k hk
        show wrapAt pr.1 k = wrapAt st.infos k
        rw [hb5 k, if_neg ?_, hW k (by omega)]
        intro hmem
        have := (hb3 k hmem).1
        omega
      · intro k hk hkN hwst'
        show modIdAt pr.1 k = -1
        rw [hb4 k, if_neg ?_, hmod1 k, if_neg (by omega)]
        · exact hM k (by omega) hkN hwst'
        · intro hmem
          have := (hb3 k hmem).1
          omega
    · rw [if_neg hfac]
      refine ⟨inv_assign hI [t] _ rfl rfl rfl rfl
        (pushModule_infos_length ..) (by simp) (List.nodup_singleton t)
        (by intro x hx; rw [List.mem_singleton] at hx; omega)
        (by intro x hx; rw [List.mem_singleton] at hx; subst hx;
            exact hunass)
        (by
          intro k
          rw [modIdAt_pushModule]
          by_cases hmem : k ∈ [t]
          · rw [List.mem_singleton] at hmem
            subst hmem
            rw [if_pos ⟨List.mem_singleton_self _, by omega⟩,
              if_pos (List.mem_singleton_self _)]
          · rw [if_neg (fun hc' => hmem hc'.1), if_neg hmem]), ?_, ?_⟩
      · intro k hk
        rw [wrapAt_pushModule]
        exact hW k (by omega)
      · intro k hk hkN hwst'
        rw [modIdAt_pushModule]
        have hne : ¬(k ∈ [t] ∧ k < s.infos.length) := by
          rintro ⟨hmem, _⟩
          rw [List.mem_singleton] at hmem
          omega
        rw [if_neg hne]
        exact hM k (by omega) hkN hwst'
  · rw [if_neg hesm]
    exact ⟨hI, fun k hk => hW k (by omega),
      fun k hk hkN hw => hM k (by omega) hkN hw⟩

theorem pass4_preserves (body : List TopStmt) (st : TraceState) :
    (pass4 body st).modules = st.modules ∧
    (pass4 body st).nextId = st.nextId ∧
    (∀ k, modIdAt (pass4 body st).infos k = modIdAt st.infos k) ∧
    (pass4 body st).infos.length = st.infos.length := by
  have h : ∀ (l : List Nat) (infos : List StmtInfo),
      (∀ k, modIdAt (l.foldl
        (fun infos i =>
          if modIdAt infos i = -1 ∧ wrapAt infos i = "None" ∧
              isImportStmt (factoryNames st) (nodeAt body i) then
            setWrap infos i "IMPORT"
          else infos) infos) k = modIdAt infos k) ∧
      (l.foldl
        (fun infos i =>
          if modIdAt infos i = -1 ∧ wrapAt infos i = "None" ∧
              isImportStmt (factoryNames st) (nodeAt body i) then
            setWrap infos i "IMPORT"
          else infos) infos).length = infos.length := by
    intro l
    induction l with
    | nil => exact fun infos => ⟨fun _ => rfl, rfl⟩
    | cons i tl ih =>
      intro infos
      simp only [List.foldl_cons]
      by_cases hc : modIdAt infos i = -1 ∧ wrapAt infos i = "None" ∧
          isImportStmt (factoryNames st) (nodeAt body i)
      · rw [if_pos hc]
        refine ⟨?_, ?_⟩
        · intro k
          rw [(ih _).1 k, modIdAt_setWrap]
        · rw [(ih _).2, length_setWrap]
      · rw [if_neg hc]
        exact ih infos
  exact ⟨rfl, rfl, (h _ _).1, (h _ _).2⟩

theorem pass4_inv {N : Nat} (body : List TopStmt) {st : TraceState}
    (hInv : Inv N st) : Inv N (pass4 body st) := by
  obtain ⟨hm, hn, hmod, hlen⟩ := pass4_preserves body st
  exact inv_congr hInv hm hn hlen hmod

theorem runsOf_flatten (infos : List StmtInfo) :
    (runsOf infos).flatten =
      (List.range infos.length).filter
        (fun k => modIdAt infos k = -1) := by
  have h : ∀ (l : List Nat) (acc : List (List Nat) × List Nat),
      ((l.foldl
          (fun (acc : List (List Nat) × List Nat) i =>
            if modIdAt infos i = -1 then (acc.1, acc.2 ++ [i])
            else if acc.2 = [] then acc
            else (acc.1 ++ [acc.2], [])) acc).1.flatten ++
        (l.foldl
          (fun (acc : List (List Nat) × List Nat) i =>
            if modIdAt infos i = -1 then (acc.1, acc.2 ++ [i])
            else if acc.2 = [] then acc
            else (acc.1 ++ [acc.2], [])) acc).2) =
        (acc.1.flatten ++ acc.2) ++
          l.filter (fun k => modIdAt infos k = -1) := by
    intro l
    induction l with
    | nil => intro acc; simp
    | cons i tl ih =>
      intro acc
      simp only [List.foldl_cons]
      by_cases hq : modIdAt infos i = -1
      · rw [if_pos hq, ih,
          List.filter_cons_of_pos (by simpa using hq)]
        simp [List.append_assoc]
      · rw [if_neg hq,
          List.filter_cons_of_neg (by simpa using hq)]
        by_cases he : acc.2 = []
        · rw [if_pos he, ih]
        · rw [if_neg he, ih]
          simp [List.append_assoc]
  have hmain := h (List.range infos.length) ([], [])
  unfold runsOf
  simp only [List.flatten_nil, List.nil_append] at hmain
  by_cases he :
      ((List.range infos.length).foldl
        (fun (acc : List (List Nat) × List Nat) i =>
          if modIdAt infos i = -1 then (acc.1, acc.2 ++ [i])
          else if acc.2 = [] then acc
          else (acc.1 ++ [acc.2], [])) ([], [])).2 = []
  · rw [if_pos he]
    rw [he, List.append_nil] at hmain
    exact hmain
  · rw [if_neg he, List.flatten_append, List.flatten_cons,
      List.flatten_nil, List.append_nil]
    exact hmain

theorem runsOf_mem (infos : List StmtInfo) (r : List Nat)
    (hr : r ∈ runsOf infos) (k : Nat) (hk : k ∈ r) :
    k < infos.length ∧ modIdAt infos k = -1 := by
  have hm : k ∈ (runsOf infos).flatten := List.mem_flatten.mpr ⟨r, hr, hk⟩
  rw [runsOf_flatten] at hm
  have := List.mem_filter.mp hm
  exact ⟨List.mem_range.mp this.1, by simpa using this.2⟩

theorem runsOf_nodup (infos : List StmtInfo) :
    (runsOf infos).flatten.Nodup := by
  rw [runsOf_flatten]
  exact (List.nodup_range _).filter _

theorem buildElementsAux_flat (graph : List GNode) (infos : List StmtInfo) :
    ∀ (fuel : Nat) (run : List Nat), run.length ≤ fuel →
      (buildElementsAux graph infos fuel run).flatMap Element.indices =
        run := by
  intro fuel
  induction fuel with
  | zero =>
    intro run h
    rw [Nat.le_zero, List.length_eq_zero] at h
    subst h
    rfl
  | succ fuel ih =>
    intro run h
    cases run with
    | nil => rfl
    | cons i rest =>
      rw [List.length_cons, Nat.succ_le_succ_iff] at h
      by_cases himp : wrapAt infos i = "IMPORT"
      · have hstep : buildElementsAux graph infos (fuel + 1) (i :: rest) =
            ⟨i :: rest.takeWhile (fun k => wrapAt infos k = "IMPORT"),
              (i :: rest.takeWhile (fun k => wrapAt infos k = "IMPORT")).foldl
                (fun acc si => acc ∪ computeFingerprint graph infos si)
                ∅⟩ ::
              buildElementsAux graph infos fuel
                (rest.dropWhile (fun k => wrapAt infos k = "IMPORT")) := by
          rw [buildElementsAux, if_pos himp]
        rw [hstep, List.flatMap_cons]
        have hd : (rest.dropWhile
            (fun k => wrapAt infos k = "IMPORT")).length ≤ fuel :=
          le_trans ((List.dropWhile_suffix _).sublist.length_le) h
        rw [ih _ hd]
        show i :: (rest.takeWhile _ ++ rest.dropWhile _) = i :: rest
        rw [List.takeWhile_append_dropWhile]
      · have hstep : buildElementsAux graph infos (fuel + 1) (i :: rest) =
            ⟨[i], computeFingerprint graph infos i⟩ ::
              buildElementsAux graph infos fuel rest := by
          rw [buildElementsAux, if_neg himp]
        rw [hstep, List.flatMap_cons, ih _ h]
        rfl

theorem buildElementsAux_ne (graph : List GNode) (infos : List StmtInfo) :
    ∀ (fuel : Nat) (run : List Nat),
      ∀ el ∈ buildElementsAux graph infos fuel run, el.indices ≠ [] := by
  intro fuel
  induction fuel with
  | zero =>
    intro run el hel
    cases run with
    | nil => cases hel
    | cons i rest => cases hel
  | succ fuel ih =>
    intro run el hel
    cases run with
    | nil => cases hel
    | cons i rest =>
      by_cases himp : wrapAt infos i = "IMPORT"
      · rw [buildElementsAux, if_pos himp] at hel
        rcases List.mem_cons.mp hel with rfl | h
        · exact List.cons_ne_nil _ _
        · exact ih _ el h
      · rw [buildElementsAux, if_neg himp] at hel
        rcases List.mem_cons.mp hel with rfl | h
        · exact List.cons_ne_nil _ _
        · exact ih _ el h

theorem flushCluster_spec {N : Nat} {st : TraceState} (hInv : Inv N st)
    (cl : List Element)
    (hne : cl.flatMap Element.indices ≠ [])
    (hnd : (cl.flatMap Element.indices).Nodup)
    (hlt : ∀ k ∈ cl.flatMap Element.indices, k < N)
    (hun : ∀ k ∈ cl.flatMap Element.indices,
      modIdAt st.infos k = -1) :
    Inv N (flushCluster st cl) ∧
    (∀ k, modIdAt (flushCluster st cl).infos k =
      if k ∈ cl.flatMap Element.indices then st.nextId
      else modIdAt st.infos k) := by
  have hmod : ∀ k, modIdAt (flushCluster st cl).infos k =
      if k ∈ cl.flatMap Element.indices then st.nextId
      else modIdAt st.infos k := by
    intro k
    show modIdAt (pushModule st _ (cl.flatMap Element.indices) _).infos k = _
    rw [modIdAt_pushModule]
    by_cases hm : k ∈ cl.flatMap Element.indices
    · rw [if_pos ⟨hm, by rw [hInv.len]; exact hlt k hm⟩, if_pos hm]
    · rw [if_neg (fun hc => hm hc.1), if_neg hm]
  exact ⟨inv_assign hInv (cl.flatMap Element.indices) _ rfl rfl rfl rfl
    (pushModule_infos_length ..) hne hnd hlt hun hmod, hmod⟩

theorem nextId_ne_neg_one {N : Nat} {st : TraceState} (hInv : Inv N st) :
    st.nextId ≠ -1 := by
  have := hInv.nextNonneg
  omega

theorem processElements_inv {N : Nat} :
    ∀ (l : List Element) (st : TraceState) (cluster : List Element),
      Inv N st → cluster ≠ [] →
      (∀ el ∈ cluster ++ l, el.indices ≠ []) →
      ((cluster ++ l).flatMap Element.indices).Nodup →
      (∀ k ∈ (cluster ++ l).flatMap Element.indices, k < N) →
      (∀ k ∈ (cluster ++ l).flatMap Element.indices,
        modIdAt st.infos k = -1) →
      Inv N (processElements st cluster l) ∧
      (∀ k, k ∉ (cluster ++ l).flatMap Element.indices →
        modIdAt (processElements st cluster l).infos k =
          modIdAt st.infos k) ∧
      (∀ k ∈ (cluster ++ l).flatMap Element.indices,
        modIdAt (processElements st cluster l).infos k ≠ -1) := by
  intro l
  induction l with
  | nil =>
    intro st cluster hInv hclne helne hnd hlt hun
    rw [List.append_nil] at helne hnd hlt hun ⊢
    have hfne : cluster.flatMap Element.indices ≠ [] := by
      cases cluster with
      | nil => exact absurd rfl hclne
      | cons e cs =>
        rw [List.flatMap_cons]
        intro hc
        rcases List.append_eq_nil.mp hc with ⟨h1, _⟩
        exact helne e (List.mem_cons_self _ _) h1
    obtain ⟨h1, h2⟩ := flushCluster_spec hInv cluster hfne hnd hlt hun
    simp only [processElements]
    refine ⟨h1, ?_, ?_⟩
    · intro k hk
      rw [h2 k, if_neg hk]
    · intro k hk
      rw [h2 k, if_pos hk]
      exact nextId_ne_neg_one hInv
  | cons e rest ih =>
    intro st cluster hInv hclne helne hnd hlt hun
    simp only [processElements]
    by_cases hj : jaccard (clusterFp cluster) e.fingerprint ≥ 1 / 2
    · rw [if_pos hj]
      have hassoc : cluster ++ [e] ++ rest = cluster ++ e :: rest := by
        rw [List.append_assoc]
        rfl
      have := ih st (cluster ++ [e]) hInv
        (by
          intro hc
          have := congrArg List.length hc
          rw [List.length_append] at this
          simp at this)
        (by rw [hassoc]; exact helne)
        (by rw [hassoc]; exact hnd)
        (by rw [hassoc]; exact hlt)
        (by rw [hassoc]; exact hun)
      rw [hassoc] at this
      exact this
    · rw [if_neg hj]
      have hsplit : (cluster ++ e :: rest).flatMap Element.indices =
          cluster.flatMap Element.indices ++
            (e :: rest).flatMap Element.indices :=
        List.flatMap_append ..
      rw [hsplit] at hnd hlt hun
      obtain ⟨hndA, hndB, hdisj⟩ := List.nodup_append.mp hnd
      have hfneA : cluster.flatMap Element.indices ≠ [] := by
        cases cluster with
        | nil => exact absurd rfl hclne
        | cons c cs =>
          rw [List.flatMap_cons]
          intro hc
          rcases List.append_eq_nil.mp hc with ⟨h1, _⟩
          exact helne c (List.mem_cons_self _ _) h1
      have hltA : ∀ k ∈ cluster.flatMap Element.indices, k < N :=
        fun k hk => hlt k (List.mem_append_left _ hk)
      have hunA : ∀ k ∈ cluster.flatMap Element.indices,
          modIdAt st.infos k = -1 :=
        fun k hk => hun k (List.mem_append_left _ hk)
      obtain ⟨hI', hmod'⟩ :=
        flushCluster_spec hInv cluster hfneA hndA hltA hunA
      have hB : ∀ k ∈ (e :: rest).flatMap Element.indices,
          k ∉ cluster.flatMap Element.indices :=
        fun k hk hkA => hdisj hkA hk
      have hrec := ih (flushCluster st cluster) [e] hI'
        (List.cons_ne_nil e [])
        (by
          intro el hel
          exact helne el (by
            rw [List.singleton_append] at hel
            rcases List.mem_cons.mp hel with rfl | h
            · exact List.mem_append_right _ (List.mem_cons_self _ _)
            · exact List.mem_append_right _ (List.mem_cons_of_mem _ h)))
        (by rw [List.singleton_append]; exact hndB)
        (by
          rw [List.singleton_append]
          exact fun k hk => hlt k (List.mem_append_right _ hk))
        (by
          rw [List.singleton_append]
          intro k hk
          rw [hmod' k, if_neg (hB k hk)]
          exact hun k (List.mem_append_right _ hk))
      rw [List.singleton_append] at hrec
      obtain ⟨R1, R2, R3⟩ := hrec
      refine ⟨R1, ?_, ?_⟩
      · intro k hk
        rw [hsplit] at hk
        have hkA : k ∉ cluster.flatMap Element.indices :=
          fun hc => hk (List.mem_append_left _ hc)
        have hkB : k ∉ (e :: rest).flatMap Element.indices :=
          fun hc => hk (List.mem_append_right _ hc)
        rw [R2 k hkB, hmod' k, if_neg hkA]
      · intro k hk
        rw [hsplit] at hk
        rcases List.mem_append.mp hk with hkA | hkB
        · rw [R2 k (hB k · hkA |> fun f => f), hmod' k, if_pos hkA]
          · exact nextId_ne_neg_one hInv
        · exact R3 k hkB

theorem processRun_inv {N : Nat} (graph : List GNode) (st : TraceState)
    (run : List Nat) (hInv : Inv N st) (hnd : run.Nodup)
    (hlt : ∀ k ∈ run, k < N)
    (hun : ∀ k ∈ run, modIdAt st.infos k = -1) :
    Inv N (processRun graph st run) ∧
    (∀ k, k ∉ run →
      modIdAt (processRun graph st run).infos k = modIdAt st.infos k) ∧
    (∀ k ∈ run, modIdAt (processRun graph st run).infos k ≠ -1) := by
  have hflat : (buildElements graph st.infos run).flatMap Element.indices =
      run :=
    buildElementsAux_flat graph st.infos run.length run (le_refl _)
  cases hbe : buildElements graph st.infos run with
  | nil =>
    rw [hbe] at hflat
    have hrun : run = [] := hflat.symm
    subst hrun
    rw [processRun, hbe]
    exact ⟨hInv, fun _ _ => rfl, fun k hk => absurd hk (List.not_mem_nil k)⟩
  | cons e rest =>
    rw [hbe] at hflat
    have hres : processRun graph st run = processElements st [e] rest := by
      unfold processRun
      rw [hbe]
    have hne : ∀ el ∈ [e] ++ rest, el.indices ≠ [] := by
      intro el hel
      rw [List.singleton_append] at hel
      rw [← hbe] at hel
      exact buildElementsAux_ne graph st.infos run.length run el hel
    have hflat' : ([e] ++ rest).flatMap Element.indices = run := by
      rw [List.singleton_append]
      exact hflat
    have := processElements_inv rest st [e] hInv (List.cons_ne_nil e [])
      hne (by rw [hflat']; exact hnd) (by rw [hflat']; exact hlt)
      (by rw [hflat']; exact hun)
    rw [hflat', ← hres] at this
    exact this

theorem pass5_fold_inv {N : Nat} (graph : List GNode) :
    ∀ (runs : List (List Nat)) (st : TraceState), Inv N st →
      runs.flatten.Nodup →
      (∀ k ∈ runs.flatten, k < N ∧ modIdAt st.infos k = -1) →
      Inv N (runs.foldl (processRun graph) st) ∧
      (∀ k, k ∉ runs.flatten →
        modIdAt (runs.foldl (processRun graph) st).infos k =
          modIdAt st.infos k) ∧
      (∀ k ∈ runs.flatten,
        modIdAt (runs.foldl (processRun graph) st).infos k ≠ -1) := by
  intro runs
  induction runs with
  | nil =>
    intro st hInv _ _
    exact ⟨hInv, fun _ _ => rfl, fun k hk => absurd hk (List.not_mem_nil k)⟩
  | cons r rs ih =>
    intro st hInv hnd hmem
    rw [List.flatten_cons] at hnd hmem
    obtain ⟨hndr, hndrs, hdisj⟩ := List.nodup_append.mp hnd
    obtain ⟨h1, h2, h3⟩ := processRun_inv graph st r hInv hndr
      (fun k hk => (hmem k (List.mem_append_left _ hk)).1)
      (fun k hk => (hmem k (List.mem_append_left _ hk)).2)
    have hstep : (r :: rs).foldl (processRun graph) st =
        rs.foldl (processRun graph) (processRun graph st r) := rfl
    obtain ⟨R1, R2, R3⟩ := ih (processRun graph st r) h1 hndrs
      (by
        intro k hk
        refine ⟨(hmem k (List.mem_append_right _ hk)).1, ?_⟩
        rw [h2 k (fun hc => hdisj hc hk)]
        exact (hmem k (List.mem_append_right _ hk)).2)
    rw [hstep, List.flatten_cons]
    refine ⟨R1, ?_, ?_⟩
    · intro k hk
      have hkr : k ∉ r := fun hc => hk (List.mem_append_left _ hc)
      have hkrs : k ∉ rs.flatten :=
        fun hc => hk (List.mem_append_right _ hc)
      rw [R2 k hkrs, h2 k hkr]
    · intro k hk
      rcases List.mem_append.mp hk with hkr | hkrs
      · rw [R2 k (fun hc => hdisj hkr hc)]
        exact h3 k hkr
      · exact R3 k hkrs

theorem pass5_inv {N : Nat} (graph : List GNode) {st : TraceState}
    (hInv : Inv N st) :
    Inv N (pass5 graph st) ∧
    (∀ k, k < N → modIdAt (pass5 graph st).infos k ≠ -1) := by
  have hlen : st.infos.length = N := hInv.len
  have hmem : ∀ k ∈ (runsOf st.infos).flatten,
      k < N ∧ modIdAt st.infos k = -1 := by
    intro k hk
    rw [runsOf_flatten] at hk
    have := List.mem_filter.mp hk
    exact ⟨by rw [← hlen]; exact List.mem_range.mp this.1,
      by simpa using this.2⟩
  obtain ⟨h1, h2, h3⟩ := pass5_fold_inv graph (runsOf st.infos) st hInv
    (runsOf_nodup st.infos) hmem
  refine ⟨h1, ?_⟩
  unfold pass5
  intro k hkN
  by_cases hk : modIdAt st.infos k = -1
  · refine h3 k ?_
    rw [runsOf_flatten]
    exact List.mem_filter.mpr
      ⟨List.mem_range.mpr (by omega), by simpa using hk⟩
  · have hkf : k ∉ (runsOf st.infos).flatten := by
      intro hc
      exact hk (hmem k hc).2
    rw [h2 k hkf]
    exact hk

theorem pass2_wraps (st : TraceState) :
    (∀ k', wrapAt (pass2 st).infos k' = wrapAt st.infos k') ∧
    (pass2 st).infos.length = st.infos.length := by
  unfold pass2
  refine foldl_inv
    (P := fun (s : TraceState) =>
      (∀ k', wrapAt s.infos k' = wrapAt st.infos k') ∧
      s.infos.length = st.infos.length)
    _ _ _ ⟨fun _ => rfl, rfl⟩ ?_
  intro s i hi hP
  by_cases hc : wrapAt s.infos i = "CJS"
  · rw [if_pos hc]
    exact ⟨fun k' => (wrapAt_pushModule ..).trans (hP.1 k'),
      (pushModule_infos_length ..).trans hP.2⟩
  · rw [if_neg hc]
    exact hP

theorem runTrace_state (body : List TopStmt) (code : Code) :
    (runTrace body code).state =
      renumber (pass5 (buildGraph body (buildDefinedBy body))
        (pass4 body (pass3 body (detectRuntimeHelpersTrace body code)
          (pass2 (pass1 (initialState body
            (detectRuntimeHelpersTrace body code) code)))))) := rfl

theorem runTrace_graph (body : List TopStmt) (code : Code) :
    (runTrace body code).graph = buildGraph body (buildDefinedBy body) :=
  rfl

theorem pipeline_st5_inv (body : List TopStmt) (helpers : HelperMap)
    (graph : List GNode) (code : Code) :
    Inv body.length
      (pass5 graph (pass4 body (pass3 body helpers
        (pass2 (pass1 (initialState body helpers code)))))) ∧
    (∀ k, k < body.length →
      modIdAt (pass5 graph (pass4 body (pass3 body helpers
        (pass2 (pass1 (initialState body helpers code)))))).infos k ≠
        -1) := by
  obtain ⟨hI0, hall0⟩ := inv_initial body helpers code
  have hI1 : Inv body.length (pass1 (initialState body helpers code)) :=
    pass1_inv hI0 (fun k _ => hall0 k)
  have hI2 : Inv body.length
      (pass2 (pass1 (initialState body helpers code))) := by
    refine pass2_inv hI1 ?_
    intro k hk hw
    obtain ⟨hw1, _, hm1⟩ := pass1_frame (initialState body helpers code) k
    rw [hw1] at hw
    rw [hm1 (by rw [hw]; intro hc; exact absurd hc (by decide))]
    exact hall0 k
  have hESM : ∀ k, k < body.length →
      wrapAt (pass2 (pass1 (initialState body helpers code))).infos k =
        "ESM" →
      modIdAt (pass2 (pass1 (initialState body helpers code))).infos k =
        -1 := by
    intro k hk hw
    obtain ⟨hw2, _⟩ := pass2_wraps (pass1 (initialState body helpers code))
    obtain ⟨hw1, _, hm1⟩ := pass1_frame (initialState body helpers code) k
    rw [hw2 k] at hw
    have hw0 : wrapAt (initialState body helpers code).infos k = "ESM" := by
      rw [← hw1]
      exact hw
    obtain ⟨_, _, hm2⟩ :=
      pass2_frame (pass1 (initialState body helpers code)) k
        (by rw [hw1, hw0]; intro hc; exact absurd hc (by decide))
    rw [hm2, hm1 (by rw [hw0]; intro hc; exact absurd hc (by decide))]
    exact hall0 k
  have hI3 := pass3_inv body helpers hI2 hESM
  have hI4 := pass4_inv body hI3
  exact pass5_inv graph hI4

theorem foldl_inv_any {σ α : Type} {P : σ → Prop} (f : σ → α → σ)
    (l : List α) (s : σ) (h0 : P s)
    (hstep : ∀ s a, a ∈ l → P s → P (f s a)) : P (l.foldl f s) := by
  induction l generalizing s with
  | nil => exact h0
  | cons a rest ih =>
    rw [List.foldl_cons]
    exact ih (f s a) (hstep s a (List.mem_cons_self _ _) h0)
      (fun s' a' ha' => hstep s' a' (List.mem_cons_of_mem _ ha'))

theorem length_addRef (g : List GNode) (i d : Nat) :
    (addRef g i d).length = g.length := by
  unfold addRef
  rw [List.length_modify, List.length_modify]

theorem refsOut_modifyIn (g : List GNode) (d i x : Nat) :
    refsOut (g.modify
      (fun n => { n with refs_in := insert i n.refs_in }) d) x =
      refsOut g x := by
  unfold refsOut
  rw [List.getElem?_modify]
  cases hx : g[x]? with
  | none => rfl
  | some n =>
    by_cases h : d = x <;> simp [h]

theorem refsIn_modifyOut (g : List GNode) (d i x : Nat) :
    refsIn (g.modify
      (fun n => { n with refs_out := insert d n.refs_out }) i) x =
      refsIn g x := by
  unfold refsIn
  rw [List.getElem?_modify]
  cases hx : g[x]? with
  | none => rfl
  | some n =>
    by_cases h : i = x <;> simp [h]

theorem refsOut_addRef_self (g : List GNode) (i d : Nat)
    (h : i < g.length) :
    refsOut (addRef g i d) i = insert d (refsOut g i) := by
  unfold addRef
  rw [refsOut_modifyIn]
  unfold refsOut
  rw [List.getElem?_modify, List.getElem?_eq_getElem h]
  simp

theorem refsOut_addRef_other (g : List GNode) (i d x : Nat) (h : x ≠ i) :
    refsOut (addRef g i d) x = refsOut g x := by
  unfold addRef
  rw [refsOut_modifyIn]
  unfold refsOut
  rw [List.getElem?_modify]
  cases hx : g[x]? with
  | none => simp [Ne.symm h]
  | some n => simp [Ne.symm h]

theorem refsIn_addRef_self (g : List GNode) (i d : Nat)
    (h : d < g.length) :
    refsIn (addRef g i d) d = insert i (refsIn g d) := by
  unfold addRef refsIn
  rw [List.getElem?_modify, List.getElem?_modify,
    List.getElem?_eq_getElem h]
  by_cases hid : i = d <;> simp [hid]

theorem refsIn_addRef_other (g : List GNode) (i d x : Nat) (h : x ≠ d) :
    refsIn (addRef g i d) x = refsIn g x := by
  unfold addRef refsIn
  rw [List.getElem?_modify, List.getElem?_modify]
  cases hx : g[x]? with
  | none => simp [Ne.symm h]
  | some n => by_cases hix : i = x <;> simp [Ne.symm h, hix]

theorem buildGraph_sym (body : List TopStmt) :
    (∀ i j, j ∈ refsOut (buildGraph body (buildDefinedBy body)) i ↔
      i ∈ refsIn (buildGraph body (buildDefinedBy body)) j) ∧
    (∀ i, i ∉ refsOut (buildGraph body (buildDefinedBy body)) i) ∧
    (∀ i j, j ∈ refsOut (buildGraph body (buildDefinedBy body)) i →
      j < body.length ∧ i < body.length) := by
  unfold buildGraph
  refine foldl_inv_any
    (P := fun (g : List GNode) =>
      ((∀ i j, j ∈ refsOut g i ↔ i ∈ refsIn g j) ∧
        (∀ i, i ∉ refsOut g i) ∧
        (∀ i j, j ∈ refsOut g i → j < body.length ∧ i < body.length)) ∧
      g.length = body.length)
    _ _ _ ⟨⟨?_, ?_, ?_⟩, by rw [List.length_map]⟩ ?_ |>.1
  · intro i j
    unfold refsOut refsIn
    rw [List.getElem?_map, List.getElem?_map]
    cases body[i]? <;> cases body[j]? <;> simp
  · intro i
    unfold refsOut
    rw [List.getElem?_map]
    cases body[i]? <;> simp
  · intro i j hj
    unfold refsOut at hj
    rw [List.getElem?_map] at hj
    cases hv : body[i]? with
    | none => rw [hv] at hj; simp at hj
    | some t => rw [hv] at hj; simp at hj
  · intro g p hp hP
    refine foldl_inv_any
      (P := fun (g : List GNode) =>
        ((∀ i j, j ∈ refsOut g i ↔ i ∈ refsIn g j) ∧
          (∀ i, i ∉ refsOut g i) ∧
          (∀ i j, j ∈ refsOut g i →
            j < body.length ∧ i < body.length)) ∧
        g.length = body.length)
      _ _ _ hP ?_
    intro g' n hn hP'
    obtain ⟨⟨hsym, hirr, hrange⟩, hlen⟩ := hP'
    split
    next d hdb =>
      by_cases hc : d ≠ p.1 ∧ n ∉ stmtDefNames p.2.node
      · rw [if_pos hc]
        have hdlt : d < body.length :=
          ((buildDefinedBy_spec body n).1 d hdb).1
        have hplt : p.1 < body.length := List.fst_lt_of_mem_enum hp
        have hdg : d < g'.length := by omega
        have hpg : p.1 < g'.length := by omega
        have hdp : d ≠ p.1 := hc.1
        refine ⟨⟨?_, ?_, ?_⟩, by rw [length_addRef]; exact hlen⟩
        · intro x y
          by_cases hx : x = p.1
          · rw [hx, refsOut_addRef_self g' p.1 d hpg]
            by_cases hy : y = d
            · rw [hy, refsIn_addRef_self g' p.1 d hdg]
              simp
            · rw [refsIn_addRef_other g' p.1 d y hy,
                Finset.mem_insert]
              constructor
              · rintro (rfl | h)
                · exact absurd rfl hy
                · exact (hsym p.1 y).mp h
              · intro h
                exact Or.inr ((hsym p.1 y).mpr h)
          · rw [refsOut_addRef_other g' p.1 d x hx]
            by_cases hy : y = d
            · rw [hy, refsIn_addRef_self g' p.1 d hdg,
                Finset.mem_insert]
              constructor
              · intro h
                exact Or.inr ((hsym x d).mp h)
              · rintro (hq | h)
                · exact absurd hq hx
                · exact (hsym x d).mpr h
            · rw [refsIn_addRef_other g' p.1 d y hy]
              exact hsym x y
        · intro x
          by_cases hx : x = p.1
          · rw [hx, refsOut_addRef_self g' p.1 d hpg,
              Finset.mem_insert]
            rintro (hq | h)
            · exact absurd hq.symm hdp
            · exact hirr p.1 h
          · rw [refsOut_addRef_other g' p.1 d x hx]
            exact hirr x
        · intro x y hy
          by_cases hx : x = p.1
          · rw [hx, refsOut_addRef_self g' p.1 d hpg,
              Finset.mem_insert] at hy
            rcases hy with rfl | h
            · exact ⟨hdlt, by rw [hx]; exact hplt⟩
            · rw [hx]
              exact hrange p.1 y h
          · rw [refsOut_addRef_other g' p.1 d x hx] at hy
            exact hrange x y hy
      · rw [if_neg hc]
        exact ⟨⟨hsym, hirr, hrange⟩, hlen⟩
    next hdb => exact ⟨⟨hsym, hirr, hrange⟩, hlen⟩

theorem mem_moduleDepsOut (infos : List StmtInfo) (graph : List GNode)
    (m : Module) (x : Int) :
    x ∈ moduleDepsOut infos graph m ↔
      ∃ s ∈ m.statements, ∃ r ∈ refsOut graph s,
        modIdAt infos r = x ∧ x ≠ m.id := by
  unfold moduleDepsOut
  rw [mem_foldl_union]
  simp only [Finset.not_mem_empty, false_or, Finset.mem_image,
    Finset.mem_filter]
  constructor
  · rintro ⟨s, hs, r, ⟨hr, hne⟩, hx⟩
    exact ⟨s, hs, r, hr, hx, by rw [← hx]; exact hne⟩
  · rintro ⟨s, hs, r, hr, hx, hne⟩
    exact ⟨s, hs, r, ⟨hr, by rw [hx]; exact hne⟩, hx⟩

theorem mem_moduleDepsIn (infos : List StmtInfo) (graph : List GNode)
    (m : Module) (x : Int) :
    x ∈ moduleDepsIn infos graph m ↔
      ∃ s ∈ m.statements, ∃ r ∈ refsIn graph s,
        modIdAt infos r = x ∧ x ≠ m.id := by
  unfold moduleDepsIn
  rw [mem_foldl_union]
  simp only [Finset.not_mem_empty, false_or, Finset.mem_image,
    Finset.mem_filter]
  constructor
  · rintro ⟨s, hs, r, ⟨hr, hne⟩, hx⟩
    exact ⟨s, hs, r, hr, hx, by rw [← hx]; exact hne⟩
  · rintro ⟨s, hs, r, hr, hx, hne⟩
    exact ⟨s, hs, r, ⟨hr, by rw [hx]; exact hne⟩, hx⟩

theorem findIdx?_found {α : Type} (p : α → Bool) :
    ∀ (l : List α) (j : Nat), l.findIdx? p = some j →
      ∃ h : j < l.length, p (l.get ⟨j, h⟩) = true := by
  intro l
  induction l with
  | nil =>
    intro j hj
    rw [List.findIdx?_nil] at hj
    cases hj
  | cons a rest ih =>
    intro j hj
    rw [List.findIdx?_cons] at hj
    by_cases hp : p a = true
    · rw [if_pos hp] at hj
      cases hj
      exact ⟨by simp, hp⟩
    · rw [if_neg hp] at hj
      rw [List.findIdx?_succ] at hj
      cases j with
      | zero =>
        exfalso
        cases hfr : rest.findIdx? p with
        | none => rw [hfr] at hj; cases hj
        | some v =>
          rw [hfr] at hj
          simp at hj
      | succ j' =>
        cases hfr : rest.findIdx? p with
        | none => rw [hfr] at hj; cases hj
        | some v =>
          rw [hfr] at hj
          have hv : v = j' := by simpa using hj
          obtain ⟨hlt, hpv⟩ := ih j' (by rw [hfr, hv])
          exact ⟨by simpa using Nat.succ_lt_succ hlt, hpv⟩

theorem mapIdxId_map {β : Type} (l : List Module) (f : Module → β)
    (hf : ∀ (n : Nat) (m : Module), f { m with id := (n : Int) } = f m) :
    (l.mapIdx (fun idx m => { m with id := (idx : Int) })).map f =
      l.map f := by
  rw [List.mapIdx_eq_enum_map, List.map_map]
  have h1 : (f ∘ Function.uncurry
      fun (idx : Nat) (m : Module) => { m with id := (idx : Int) }) =
      (fun p : Nat × Module => f p.2) :=
    funext (fun p => hf p.1 p.2)
  rw [h1,
    show (fun p : Nat × Module => f p.2) = f ∘ Prod.snd from rfl,
    ← List.map_map, List.enum_map_snd]

theorem mapIdxId_ids (l : List Module) :
    (l.mapIdx (fun idx m => { m with id := (idx : Int) })).map Module.id =
      List.map (fun n : Nat => (n : Int)) (List.range l.length) := by
  rw [List.mapIdx_eq_enum_map, List.map_map,
    show (Module.id ∘ Function.uncurry
        fun (idx : Nat) (m : Module) => { m with id := (idx : Int) }) =
      ((fun n : Nat => (n : Int)) ∘ Prod.fst) from rfl,
    ← List.map_map, List.enum_map_fst]

theorem minStmt_mem (m : Module) (hne : m.statements ≠ []) :
    minStmt m ∈ m.statements := by
  obtain ⟨v, hv⟩ : ∃ v, m.statements.min? = some v := by
    cases h : m.statements with
    | nil => exact absurd h hne
    | cons a t => exact ⟨_, List.min?_cons⟩
  have hmem : v ∈ m.statements := by
    rw [List.min?_eq_some_iff] at hv
    · exact hv.1
    · exact fun a => le_refl a
    · exact fun a b => min_choice a b
    · exact fun a b c => le_min_iff
  show m.statements.min?.getD 0 ∈ m.statements
  rw [hv]
  exact hmem

theorem renumber_modules (st : TraceState) :
    (renumber st).modules =
      (List.insertionSort (fun a b => minStmt a ≤ minStmt b)
        st.modules).mapIdx (fun idx m => { m with id := (idx : Int) }) :=
  rfl

theorem renumber_nextId (st : TraceState) :
    (renumber st).nextId = st.nextId := rfl

theorem modIdAt_renumber (st : TraceState) (k : Nat) :
    modIdAt (renumber st).infos k =
      if modIdAt st.infos k = -1 then -1
      else
        match (List.insertionSort (fun a b => minStmt a ≤ minStmt b)
            st.modules).findIdx?
            (fun m => m.id = modIdAt st.infos k) with
        | some j => (j : Int)
        | none => -1 := by
  show modIdAt (st.infos.map _) k = _
  unfold modIdAt
  rw [List.getElem?_map]
  cases hx : st.infos[k]? with
  | none => simp
  | some si =>
    simp only [Option.map_some', Option.getD_some]
    by_cases hm : si.moduleId = -1
    · rw [if_neg (by simp [hm]), if_pos hm]
      exact hm
    · rw [if_pos hm, if_neg hm]

theorem mem_mapIdxId (sorted : List Module) (m : Module)
    (hm : m ∈ sorted.mapIdx
      (fun idx mm => { mm with id := (idx : Int) })) :
    ∃ (idx : Nat) (m₀ : Module), sorted[idx]? = some m₀ ∧
      m = { m₀ with id := (idx : Int) } := by
  obtain ⟨idx, hidx, hgm⟩ := List.mem_iff_getElem.mp hm
  have hidx' : idx < sorted.length := by
    simpa [List.length_mapIdx] using hidx
  refine ⟨idx, sorted[idx], ?_, ?_⟩
  · rw [List.getElem?_eq_getElem hidx']
  · rw [← hgm, List.getElem_mapIdx]

theorem renumber_spec {N : Nat} {st : TraceState} (hInv : Inv N st)
    (hcov : ∀ k, k < N → modIdAt st.infos k ≠ -1) :
    ((renumber st).modules.map Module.id =
      List.map (fun n : Nat => (n : Int))
        (List.range (renumber st).modules.length)) ∧
    (((renumber st).modules.map minStmt).Pairwise (· < ·)) ∧
    (∀ m ∈ (renumber st).modules, ∀ s ∈ m.statements, s < N) ∧
    (∀ m ∈ (renumber st).modules, ∀ s, s < N →
      (s ∈ m.statements ↔ modIdAt (renumber st).infos s = m.id)) ∧
    (∀ k, k < N → modIdAt (renumber st).infos k ≠ -1) := by
  have hperm : (List.insertionSort (fun a b => minStmt a ≤ minStmt b)
      st.modules).Perm st.modules := List.perm_insertionSort _ _
  have hndsorted : ((List.insertionSort
      (fun a b => minStmt a ≤ minStmt b) st.modules).map
        Module.id).Nodup :=
    ((hperm.map Module.id).nodup_iff).mpr hInv.idsNodup
  refine ⟨?_, ?_, ?_, ?_, ?_⟩
  · rw [renumber_modules, List.length_mapIdx, mapIdxId_ids]
  · have hle : (List.insertionSort (fun a b => minStmt a ≤ minStmt b)
        st.modules).Pairwise (fun a b => minStmt a ≤ minStmt b) := by
      haveI : IsTotal Module (fun a b => minStmt a ≤ minStmt b) :=
        ⟨fun a b => le_total _ _⟩
      haveI : IsTrans Module (fun a b => minStmt a ≤ minStmt b) :=
        ⟨fun a b c hab hbc => le_trans hab hbc⟩
      exact List.sorted_insertionSort _ _
    have hne_ids : (List.insertionSort
        (fun a b => minStmt a ≤ minStmt b) st.modules).Pairwise
          (fun a b => a.id ≠ b.id) :=
      List.pairwise_map.mp hndsorted
    have hlt : (List.insertionSort (fun a b => minStmt a ≤ minStmt b)
        st.modules).Pairwise (fun a b => minStmt a < minStmt b) := by
      refine List.Pairwise.imp_of_mem ?_ (hle.and hne_ids)
      intro a b ha hb hab
      refine lt_of_le_of_ne hab.1 ?_
      intro heq
      have ham : a ∈ st.modules := hperm.subset ha
      have hbm : b ∈ st.modules := hperm.subset hb
      have hma : minStmt a ∈ a.statements :=
        minStmt_mem a (hInv.stmtsNe a ham)
      have hmb : minStmt b ∈ b.statements :=
        minStmt_mem b (hInv.stmtsNe b hbm)
      have hlta : minStmt a < N := hInv.stmtsLt a ham _ hma
      have hltb : minStmt b < N := hInv.stmtsLt b hbm _ hmb
      have hfa : modIdAt st.infos (minStmt a) = a.id :=
        (hInv.fiber a ham _ hlta).mp hma
      have hfb : modIdAt st.infos (minStmt b) = b.id :=
        (hInv.fiber b hbm _ hltb).mp hmb
      exact hab.2 (by rw [← hfa, heq, hfb])
    have hmins : (renumber st).modules.map minStmt =
        (List.insertionSort (fun a b => minStmt a ≤ minStmt b)
          st.modules).map minStmt := by
      rw [renumber_modules]
      exact mapIdxId_map _ minStmt (fun _ _ => rfl)
    rw [hmins]
    exact List.pairwise_map.mpr hlt
  · rw [renumber_modules]
    intro m hm s hs
    obtain ⟨idx, m₀, hidx, rfl⟩ := mem_mapIdxId _ m hm
    have hm₀s : m₀ ∈ List.insertionSort
        (fun a b => minStmt a ≤ minStmt b) st.modules := by
      have h2 := List.getElem?_eq_some.mp hidx
      exact h2.choose_spec ▸ List.getElem_mem _
    exact hInv.stmtsLt m₀ (hperm.subset hm₀s) s hs
  · rw [renumber_modules]
    intro m hm s hsN
    obtain ⟨idx, m₀, hidx, rfl⟩ := mem_mapIdxId _ m hm
    have hm₀s : m₀ ∈ List.insertionSort
        (fun a b => minStmt a ≤ minStmt b) st.modules := by
      have h2 := List.getElem?_eq_some.mp hidx
      exact h2.choose_spec ▸ List.getElem_mem _
    have hm₀m : m₀ ∈ st.modules := hperm.subset hm₀s
    have hcv : ¬modIdAt st.infos s = -1 := hcov s hsN
    rw [modIdAt_renumber, if_neg hcv]
    show s ∈ m₀.statements ↔ _
    constructor
    · intro hs
      have hfib := (hInv.fiber m₀ hm₀m s hsN).mp hs
      rw [hfib, findIdx?_of_nodup_ids _ hndsorted idx m₀ hidx]
    · intro heq
      cases hf : (List.insertionSort (fun a b => minStmt a ≤ minStmt b)
          st.modules).findIdx?
          (fun mm => mm.id = modIdAt st.infos s) with
      | none =>
        rw [hf] at heq
        exfalso
        have hneg : (-1 : Int) = (idx : Int) := heq
        omega
      | some j =>
        rw [hf] at heq
        have heq2 : (j : Int) = (idx : Int) := heq
        have hji : j = idx := by exact_mod_cast heq2
        subst hji
        obtain ⟨hjlt, hpj⟩ := findIdx?_found _ _ j hf
        have hid : ((List.insertionSort
            (fun a b => minStmt a ≤ minStmt b) st.modules).get
              ⟨j, hjlt⟩).id = modIdAt st.infos s :=
          of_decide_eq_true hpj
        have h2 := List.getElem?_eq_getElem hjlt
        rw [hidx] at h2
        have hm0 : m₀ = (List.insertionSort
            (fun a b => minStmt a ≤ minStmt b) st.modules).get
              ⟨j, hjlt⟩ := Option.some.inj h2
        refine (hInv.fiber m₀ hm₀m s hsN).mpr ?_
        rw [hm0]
        exact hid.symm
  · intro k hkN
    have hcv : ¬modIdAt st.infos k = -1 := hcov k hkN
    rw [modIdAt_renumber, if_neg hcv]
    obtain ⟨m₀, hm₀, hid₀⟩ := hInv.assignedExists k hkN hcv
    have hm₀s : m₀ ∈ List.insertionSort
        (fun a b => minStmt a ≤ minStmt b) st.modules :=
      hperm.mem_iff.mpr hm₀
    obtain ⟨idx, hlt2, heq2⟩ := List.mem_iff_getElem.mp hm₀s
    have hidx : (List.insertionSort (fun a b => minStmt a ≤ minStmt b)
        st.modules)[idx]? = some m₀ := by
      rw [List.getElem?_eq_getElem hlt2, heq2]
    rw [← hid₀, findIdx?_of_nodup_ids _ hndsorted idx m₀ hidx]
    intro hc
    have hc2 : ((idx : Nat) : Int) = -1 := hc
    omega

theorem renumber_countP (st : TraceState) (k : Nat) :
    (renumber st).modules.countP (fun m => k ∈ m.statements) =
      st.modules.countP (fun m => k ∈ m.statements) := by
  rw [renumber_modules]
  calc ((List.insertionSort (fun a b => minStmt a ≤ minStmt b)
        st.modules).mapIdx
          (fun idx m => { m with id := (idx : Int) })).countP
        (fun m => k ∈ m.statements)
      = (((List.insertionSort (fun a b => minStmt a ≤ minStmt b)
          st.modules).mapIdx
            (fun idx m => { m with id := (idx : Int) })).map
          Module.statements).countP (fun s => k ∈ s) :=
        (List.countP_map (fun s : List Nat => decide (k ∈ s))
          Module.statements _).symm
    _ = ((List.insertionSort (fun a b => minStmt a ≤ minStmt b)
          st.modules).map Module.statements).countP
            (fun s => k ∈ s) := by
        rw [mapIdxId_map _ Module.statements (fun _ _ => rfl)]
    _ = (List.insertionSort (fun a b => minStmt a ≤ minStmt b)
          st.modules).countP (fun m => k ∈ m.statements) :=
        List.countP_map (fun s : List Nat => decide (k ∈ s))
          Module.statements _
    _ = st.modules.countP (fun m => k ∈ m.statements) :=
        (List.perm_insertionSort _ _).countP_eq _

theorem runTrace_final (body : List TopStmt) (code : Code) :
    ((runTrace body code).state.modules.map Module.id =
      List.map (fun n : Nat => (n : Int))
        (List.range (runTrace body code).state.modules.length)) ∧
    (((runTrace body code).state.modules.map minStmt).Pairwise
      (· < ·)) ∧
    (∀ m ∈ (runTrace body code).state.modules, ∀ s ∈ m.statements,
      s < body.length) ∧
    (∀ m ∈ (runTrace body code).state.modules, ∀ s, s < body.length →
      (s ∈ m.statements ↔
        modIdAt (runTrace body code).state.infos s = m.id)) ∧
    (∀ k, k < body.length →
      modIdAt (runTrace body code).state.infos k ≠ -1) ∧
    (∀ k, k < body.length →
      (runTrace body code).state.modules.countP
        (fun m => k ∈ m.statements) = 1) := by
  obtain ⟨hI5, hcov5⟩ := pipeline_st5_inv body
    (detectRuntimeHelpersTrace body code)
    (buildGraph body (buildDefinedBy body)) code
  have hsp := renumber_spec hI5 hcov5
  rw [runTrace_state]
  refine ⟨hsp.1, hsp.2.1, hsp.2.2.1, hsp.2.2.2.1, hsp.2.2.2.2, ?_⟩
  intro k hk
  rw [renumber_countP]
  obtain ⟨m₀, hm₀, hid₀⟩ := hI5.assignedExists k hk (hcov5 k hk)
  refine countP_eq_one_of_unique _ _ Module.id hI5.idsNodup m₀ hm₀ ?_ ?_
  · have hkm : k ∈ m₀.statements :=
      (hI5.fiber m₀ hm₀ k hk).mpr hid₀.symm
    exact decide_eq_true hkm
  · intro b hb hpb
    have hkb : k ∈ b.statements := of_decide_eq_true hpb
    have hb2 := (hI5.fiber b hb k hk).mp hkb
    rw [← hb2]
    exact hid₀.symm

/-- C5: after the five identification passes and the renumbering
post-pass, every top-level statement index below `body.length` lies in
exactly one module's statement list, every module statement index is in
range (so the statement lists partition `0..N-1`), and the final module
ids are exactly `0..|modules|-1`, in strictly increasing order of each
module's smallest statement index. -/
theorem c5_partition_and_dense_ids (body : List TopStmt) (code : Code) :
    (∀ k, k < body.length →
      (runTrace body code).state.modules.countP
        (fun m => k ∈ m.statements) = 1) ∧
    (∀ m ∈ (runTrace body code).state.modules, ∀ s ∈ m.statements,
      s < body.length) ∧
    ((runTrace body code).state.modules.map Module.id =
      List.map (fun n : Nat => (n : Int))
        (List.range (runTrace body code).state.modules.length)) ∧
    (((runTrace body code).state.modules.map minStmt).Pairwise
      (· < ·)) := by
  obtain ⟨h1, h2, h3, _, _, h6⟩ := runTrace_final body code
  exact ⟨h6, h3, h1, h2⟩

theorem c5_witness :
    0 < c2Body.length ∧
    (runTrace c2Body c2Code).state.modules.countP
      (fun m => 0 ∈ m.statements) = 1 :=
  ⟨by decide,
    (c5_partition_and_dense_ids c2Body c2Code).1 0 (by decide)⟩

/-- C6: the statement reference graph is symmetric and irreflexive, and
so is the module dependency graph on the final state: `j ∈ refs_out(i)`
iff `i ∈ refs_in(j)`, never `i ∈ refs_out(i)`; for modules of the final
state, `m'.id ∈ deps_out(m)` iff `m.id ∈ deps_in(m')`, and no module id
is in its own `deps_out`. -/
theorem c6_graph_symmetry (body : List TopStmt) (code : Code) :
    (∀ i j, j ∈ refsOut (runTrace body code).graph i ↔
      i ∈ refsIn (runTrace body code).graph j) ∧
    (∀ i, i ∉ refsOut (runTrace body code).graph i) ∧
    (∀ m ∈ (runTrace body code).state.modules,
      ∀ m' ∈ (runTrace body code).state.modules,
        (m'.id ∈ moduleDepsOut (runTrace body code).state.infos
            (runTrace body code).graph m ↔
          m.id ∈ moduleDepsIn (runTrace body code).state.infos
            (runTrace body code).graph m')) ∧
    (∀ m, m.id ∉ moduleDepsOut (runTrace body code).state.infos
      (runTrace body code).graph m) := by
  obtain ⟨hsym, hirr, hrange⟩ := buildGraph_sym body
  obtain ⟨_, _, hstmtsLt, hfiber, _, _⟩ := runTrace_final body code
  rw [runTrace_graph]
  refine ⟨hsym, hirr, ?_, ?_⟩
  · intro m hm m' hm'
    rw [mem_moduleDepsOut, mem_moduleDepsIn]
    constructor
    · rintro ⟨s, hs, r, hr, hmod, hne⟩
      have hsN : s < body.length := hstmtsLt m hm s hs
      have hrN : r < body.length := (hrange s r hr).1
      refine ⟨r, ?_, s, ?_, ?_, ?_⟩
      · exact (hfiber m' hm' r hrN).mpr hmod
      · exact (hsym s r).mp hr
      · exact (hfiber m hm s hsN).mp hs
      · exact hne.symm
    · rintro ⟨s', hs', r', hr', hmod', hne'⟩
      have hout : s' ∈ refsOut (buildGraph body (buildDefinedBy body))
          r' := (hsym r' s').mpr hr'
      have hr'N : r' < body.length := (hrange r' s' hout).2
      have hs'N : s' < body.length := (hrange r' s' hout).1
      refine ⟨r', ?_, s', hout, ?_, ?_⟩
      · exact (hfiber m hm r' hr'N).mpr hmod'
      · exact (hfiber m' hm' s' hs'N).mp hs'
      · exact hne'.symm
  · intro m
    rw [mem_moduleDepsOut]
    rintro ⟨s, hs, r, hr, hmod, hne⟩
    exact hne rfl

theorem c6_witness :
    (0 ∉ refsOut (runTrace c1Body c1Code).graph 0) ∧
    (1 ∈ refsOut (runTrace c1Body c1Code).graph 1 ↔
      1 ∈ refsIn (runTrace c1Body c1Code).graph 1) :=
  ⟨(c6_graph_symmetry c1Body c1Code).2.1 0,
    (c6_graph_symmetry c1Body c1Code).1 1 1⟩

end Demini
